import Mathlib

/-! Catalog service: parameter normalisation, repository query and response assembly

A shallow embedding of `app/catalog/handler.go`, `app/categories/handler.go`,
`app/api/response.go` and `models/products_repository.go`, together with the parts of the Go standard
library (`strconv`) the handler calls.

Conventions of the embedding

* A Go `string` is a sequence of bytes (`GoString`).
* Go's `int` is the 64-bit `int` of the usual server targets (`intSize = 64`);
  `uint64` and `int64` arithmetic wraps explicitly.
* A Go function returning `(value, error)` returns a pair whose second
  component is `none` for a `nil` error.
* A Go pointer or slice that may be `nil` is an `Option`.
* A `float64` is a value of an abstract type `F`; which of them `encoding/json`
  refuses to encode (the infinities and NaN) is a parameter (`json.Floats`).
-/

namespace Catalog

/-- One byte of a Go string. -/
abbrev Byte := Fin 256

/-- A Go string: a sequence of bytes. -/
abbrev GoString := List Byte

/-! ## `strconv` -/

namespace strconv

/-- The `Err` field of a `*strconv.NumError`. -/
inductive NumError where
  | ErrSyntax
  | ErrRange
  | ErrBitSize
  deriving DecidableEq, Repr

/-- Size in bits of Go's `int` (`strconv.IntSize`). -/
def intSize : Nat := 64

/-- Largest `uint64`: `1<<64 - 1`. -/
def maxUint64 : Nat := 2 ^ 64 - 1

/-- Conversion `int64(x)` (also `int(x)` at `intSize = 64`): two's-complement wrap. -/
def toInt64 (x : Int) : Int := (x + 2 ^ 63) % 2 ^ 64 - 2 ^ 63

/-- Go's `lower(c)`: `c | ('x' - 'X')`. -/
def lower (c : Byte) : Nat := c.val ||| 0x20

/-- The digit loop of `ParseUint` at base 10: `n` is the `uint64` accumulator,
`maxVal` is `1<<bitSize - 1`. -/
def parseUintLoop (maxVal : Nat) : List Byte → Nat → Nat × Option NumError
  | [], n => (n, none)
  | c :: cs, n =>
    let base : Nat := 10
    let cutoff : Nat := maxUint64 / 10 + 1
    -- the byte's digit value, `none` for the `default:` branch of the switch
    let d? : Option Nat :=
      if 48 ≤ c.val ∧ c.val ≤ 57 then some (c.val - 48)
      else if 97 ≤ lower c ∧ lower c ≤ 122 then some ((lower c - 97 + 10) % 256)
      else none
    match d? with
    | none => (0, some NumError.ErrSyntax)
    | some d =>
      if d ≥ base then (0, some NumError.ErrSyntax)
      else if n ≥ cutoff then (maxVal, some NumError.ErrRange)
      else
        let n10 := (n * base) % 2 ^ 64
        let n1 := (n10 + d) % 2 ^ 64
        if n1 < n10 ∨ n1 > maxVal then (maxVal, some NumError.ErrRange)
        else parseUintLoop maxVal cs n1

/-- Function `strconv.ParseUint(s, 10, bitSize)`: the base is fixed at 10, the
only base the callers pass (the radix detection and underscore handling of
base 0 are not reached). -/
def ParseUint (s : GoString) (bitSize : Nat) : Nat × Option NumError :=
  if s = [] then (0, some NumError.ErrSyntax)
  else if bitSize > 64 then (0, some NumError.ErrBitSize)
  else
    let bitSize := if bitSize = 0 then intSize else bitSize
    let maxVal := 2 ^ bitSize - 1
    parseUintLoop maxVal s 0

/-- The second half of `ParseInt` ("convert unsigned and check range"), once
the leading sign is picked off: `neg` tells whether it was `-`, `s1` is the
rest of the text. -/
def ParseInt.convert (neg : Bool) (s1 : GoString) (bitSize : Nat) : Int × Option NumError :=
  let r := ParseUint s1 bitSize
  let un := r.1
  if r.2 ≠ none ∧ r.2 ≠ some NumError.ErrRange then (0, r.2)
  else
    let bitSize := if bitSize = 0 then intSize else bitSize
    let cutoff : Nat := 2 ^ (bitSize - 1)
    if !neg ∧ un ≥ cutoff then (((cutoff - 1 : Nat) : Int), some NumError.ErrRange)
    else if neg ∧ un > cutoff then (-(cutoff : Int), some NumError.ErrRange)
    else
      let n := toInt64 un
      (if neg then toInt64 (-n) else n, none)

/-- Function `strconv.ParseInt(s, 10, bitSize)` at base 10. -/
def ParseInt (s : GoString) (bitSize : Nat) : Int × Option NumError :=
  match s with
  | [] => (0, some NumError.ErrSyntax)
  | c :: rest =>
    -- pick off leading sign
    if c.val = 43 then ParseInt.convert false rest bitSize
    else if c.val = 45 then ParseInt.convert true rest bitSize
    else ParseInt.convert false s bitSize

/-- The digit loop of the fast path of `Atoi`: `ch -= '0'` on a byte, then
`n = n*10 + int(ch)` on an `int`; `none` is the syntax error. -/
def atoiLoop : List Byte → Int → Option Int
  | [], n => some n
  | c :: cs, n =>
    let ch : Nat := (c.val + 256 - 48) % 256
    if ch > 9 then none
    else atoiLoop cs (toInt64 (n * 10 + ch))

/-- The fast path of `Atoi` once the sign byte, if any, is stepped over: the
digit loop on the rest `s1`, negated when the first byte was `-`. -/
def Atoi.fast (neg : Bool) (s1 : GoString) : Int × Option NumError :=
  match atoiLoop s1 0 with
  | none => (0, some NumError.ErrSyntax)
  | some n => (if neg then toInt64 (-n) else n, none)

/-- Function `strconv.Atoi`. -/
def Atoi (s : GoString) : Int × Option NumError :=
  let sLen := s.length
  if (intSize = 32 ∧ 0 < sLen ∧ sLen < 10) ∨ (intSize = 64 ∧ 0 < sLen ∧ sLen < 19) then
    -- fast path for small integers that fit the int type
    match s with
    | [] => (0, some NumError.ErrSyntax)
    | c :: rest =>
      if c.val = 45 ∨ c.val = 43 then
        if rest.length < 1 then (0, some NumError.ErrSyntax)
        else Atoi.fast (c.val = 45) rest
      else Atoi.fast (c.val = 45) s
  else
    -- slow path for invalid, big, or underscored integers
    let r := ParseInt s 0
    (toInt64 r.1, r.2)

end strconv

/-! ## `github.com/shopspring/decimal` -/

namespace decimal

/-- A `decimal.Decimal`: the number `value * 10 ^ exp` (`value` is the
`*big.Int`, a `nil` one counts as zero; `exp` is the `int32` exponent). -/
structure Decimal where
  value : Int
  exp : Int
  deriving DecidableEq, Repr

/-- The constant `decimal.Zero`, `New(0, 1)`. -/
def Zero : Decimal := ⟨0, 1⟩

/-- Method `Decimal.IsZero`: `d.Sign() == 0`, the sign of `value`. -/
def Decimal.IsZero (d : Decimal) : Bool := d.value == 0

/-- The number a decimal denotes. -/
def Decimal.toRat (d : Decimal) : ℚ := (d.value : ℚ) * (10 : ℚ) ^ d.exp

/-- The coefficient of `d` once rescaled to the exponent `e ≤ d.exp`. -/
def Decimal.rescale (d : Decimal) (e : Int) : Int := d.value * 10 ^ (d.exp - e).toNat

/-- Numeric `a < b`: both coefficients rescaled to the smaller exponent. -/
def Decimal.lt (a b : Decimal) : Bool :=
  decide (a.rescale (min a.exp b.exp) < b.rescale (min a.exp b.exp))

/-- The two library functions of `decimal` the handler calls and the embedding
leaves uninterpreted: the conversion to `float64` (an abstract type `F`) and the
parser of decimal texts. -/
structure Lib (F : Type) where
  InexactFloat64 : Decimal → F
  NewFromString : GoString → Decimal × Option String

end decimal

open decimal (Decimal)

/-! ## `models` -/

namespace models

/-- Modelled from the spec: the declaration of `models.Category` is not among
the sources; these are the fields the handlers and the tests use. -/
structure Category where
  ID : Nat
  Code : String
  Name : String
  deriving DecidableEq, Repr

/-- Modelled from the spec: the declaration of `models.Variant` is not among
the sources; these are the fields the handler and the tests use. -/
structure Variant where
  ID : Nat
  ProductID : Nat
  Name : String
  SKU : String
  Price : Decimal
  deriving DecidableEq, Repr

/-- Modelled from the spec: the declaration of `models.Product` is not among
the sources; these are the fields the handler and the tests use, and the
`category_id` column the repository filters on (`none` is SQL `NULL`). -/
structure Product where
  ID : Nat
  Code : String
  Price : Decimal
  CategoryID : Option Nat
  Category : Option Category
  Variants : List Variant
  deriving DecidableEq, Repr

/-- The part of a `*gorm.DB` statement the repository builds: the `WHERE`
conditions in the order they were added, and the `OFFSET` and `LIMIT`. -/
structure Statement where
  conds : List (Product → Bool)
  offset : Option Int
  limit : Option Int

/-- Method `Where`: one more condition, in conjunction with the earlier ones. -/
def Statement.Where (q : Statement) (cond : Product → Bool) : Statement :=
  { q with conds := q.conds ++ [cond] }

/-- Method `Offset`. -/
def Statement.Offset (q : Statement) (offset : Int) : Statement :=
  { q with offset := some offset }

/-- Method `Limit`. -/
def Statement.Limit (q : Statement) (limit : Int) : Statement :=
  { q with limit := some limit }

/-- The product store behind `*gorm.DB`: its rows in the store's order, each
with its category and variants (what `Preload` attaches), and the failure, if
any, the store answers a count or a fetch with. -/
structure DB where
  rows : List Product
  countErr : Option String
  findErr : Option String

/-- The rows a statement's `WHERE` conditions keep. -/
def DB.matching (db : DB) (q : Statement) : List Product :=
  db.rows.filter (fun p => q.conds.all (fun cond => cond p))

/-- Finisher `Model(&Product{}).Count(&total)`: `SELECT count(*)` under the
statement's conditions. -/
def DB.Count (db : DB) (q : Statement) : Int × Option String :=
  match db.countErr with
  | some e => (0, some e)
  | none => (((db.matching q).length : Nat), none)

/-- Finisher `Find(&products)`: the matching rows after `OFFSET` (written only
when positive) and `LIMIT` (written only when non-negative). -/
def DB.Find (db : DB) (q : Statement) : List Product × Option String :=
  match db.findErr with
  | some e => ([], some e)
  | none =>
    let rows := db.matching q
    let rows := match q.offset with
      | some o => if o > 0 then rows.drop o.toNat else rows
      | none => rows
    let rows := match q.limit with
      | some l => if l ≥ 0 then rows.take l.toNat else rows
      | none => rows
    (rows, none)

/-- The limit normalisation that opens `GetProductsByFilter` ("validate and
normalize limit"): the two `if` statements in sequence. -/
def normalizeLimit (limit : Int) : Int :=
  let limit := if limit ≤ 0 then 10 else limit
  let limit := if limit > 100 then 100 else limit
  limit

/-- The statement of `GetProductsByFilter` once its filters are applied ("apply
filters"): one `Where` per filter that is not `nil`, category first. -/
def applyFilters (categoryID : Option Nat) (priceLessThan : Option Decimal) : Statement :=
  let query : Statement := { conds := [], offset := none, limit := none }
  let query := match categoryID with
    | some c => query.Where (fun p => p.CategoryID == some c)
    | none => query
  let query := match priceLessThan with
    | some d => query.Where (fun p => p.Price.lt d)
    | none => query
  query

/-- Method `ProductsRepository.GetProductsByFilter`: the page (a `nil` slice
is `none`), the total and the error. -/
def GetProductsByFilter (db : DB) (offset limit : Int) (categoryID : Option Nat)
    (priceLessThan : Option Decimal) : Option (List Product) × Int × Option String :=
  let limit := normalizeLimit limit
  let query := applyFilters categoryID priceLessThan
  -- get total count
  match db.Count query with
  | (_, some err) => (none, 0, some err)
  | (total, none) =>
    -- get paginated results
    match db.Find ((query.Offset offset).Limit limit) with
    | (_, some err) => (none, 0, some err)
    | (products, none) => (some products, total, none)

/-- Method `ProductsRepository.GetProductByCode`: the first row with the code,
or the store's failure (`record not found` when there is none). -/
def GetProductByCode (db : DB) (code : String) : Option Product × Option String :=
  match db.findErr with
  | some e => (none, some e)
  | none =>
    match db.rows.find? (fun p => p.Code == code) with
    | some p => (some p, none)
    | none => (none, some "record not found")

end models

/-! ## `encoding/json` values and `app/api` -/

/-- A JSON value as `encoding/json` writes it; `F` is `float64`. An object
lists its members in the order they are written. -/
inductive Json (F : Type) where
  | null : Json F
  | number : F → Json F
  | integer : Int → Json F
  | string : String → Json F
  | array : List (Json F) → Json F
  | object : List (String × Json F) → Json F

/-- The member of an object under a key, `none` when the object has no such
member (or the value is not an object). -/
def Json.member {F : Type} (j : Json F) (key : String) : Option (Json F) :=
  match j with
  | Json.object fields => (fields.find? (fun kv => kv.1 == key)).map (fun kv => kv.2)
  | _ => none

namespace json

/-- What `encoding/json` does with a `float64`, left uninterpreted: whether it
refuses the value (an infinity or NaN, an `UnsupportedValueError`), and the
text `strconv.FormatFloat` gives for it in the error message. -/
structure Floats (F : Type) where
  unsupported : F → Bool
  format : F → String

end json

mutual
/-- The error of `json.Encoder.Encode` on a value, `none` when the value is
encoded: the encoder walks the value in the order it writes it and stops at
the first number it refuses. -/
def Json.encodeError {F : Type} (fl : json.Floats F) : Json F → Option String
  | Json.number x =>
    if fl.unsupported x = true then some ("json: unsupported value: " ++ fl.format x) else none
  | Json.array xs => Json.encodeErrorList fl xs
  | Json.object fields => Json.encodeErrorFields fl fields
  | _ => none
/-- The error of the encoder on the elements of an array, first to last. -/
def Json.encodeErrorList {F : Type} (fl : json.Floats F) : List (Json F) → Option String
  | [] => none
  | j :: js =>
    match j.encodeError fl with
    | some e => some e
    | none => Json.encodeErrorList fl js
/-- The error of the encoder on the members of an object, first to last. -/
def Json.encodeErrorFields {F : Type} (fl : json.Floats F) :
    List (String × Json F) → Option String
  | [] => none
  | (_, j) :: fields =>
    match j.encodeError fl with
    | some e => some e
    | none => Json.encodeErrorFields fl fields
end

namespace api

/-- The body a handler has written: a JSON value, or a plain text (the error
text of `http.Error`). -/
inductive Body (F : Type) where
  | json : Json F → Body F
  | text : String → Body F

/-- The member of a JSON body under a key; a text body has no members. -/
def Body.member {F : Type} (b : Body F) (key : String) : Option (Json F) :=
  match b with
  | Body.json j => j.member key
  | Body.text _ => none

/-- What a handler has sent through its `http.ResponseWriter`: the status and
the `Content-Type` header as of the first `WriteHeader`, and the body. -/
structure Response (F : Type) where
  status : Nat
  contentType : String
  body : Body F

/-- Function `api.OKResponse`, given the JSON value `data` encodes to. The
header and the status 200 are sent before the encoding. When `Encode` fails it
has written nothing, and `http.Error` runs after the header is sent: its status
500 and its content type come too late, only its text, the error and a
newline, reaches the body. -/
def OKResponse {F : Type} (fl : json.Floats F) (data : Json F) : Response F :=
  match data.encodeError fl with
  | none => { status := 200, contentType := "application/json", body := Body.json data }
  | some err =>
    { status := 200, contentType := "application/json", body := Body.text (err ++ "\n") }

/-- Function `api.ErrorResponse`: the body is the map with the one key `error`;
a map of strings always encodes, so the failure branch is never taken. -/
def ErrorResponse {F : Type} (status : Nat) (message : String) : Response F :=
  { status := status, contentType := "application/json",
    body := Body.json (Json.object [("error", Json.string message)]) }

end api

/-! ## `app/catalog` -/

namespace catalog

open models (Product Variant Category)

/-- The Go type `CategoryResponse`. -/
structure CategoryResponse where
  Code : String
  Name : String
  deriving DecidableEq, Repr

/-- The Go type `VariantResponse`; `Price` is the `*float64`. -/
structure VariantResponse (F : Type) where
  Name : String
  SKU : String
  Price : Option F

/-- The Go type `ProductResponse`; `Category` is a pointer and `Variants` a
slice that may be `nil`. -/
structure ProductResponse (F : Type) where
  Code : String
  Price : F
  Category : Option CategoryResponse
  Variants : Option (List (VariantResponse F))

/-- The Go type `CatalogListResponse`. -/
structure CatalogListResponse (F : Type) where
  Products : Option (List (ProductResponse F))
  Total : Int

/-- The Go type `ProductDetailResponse`; `Category` is a struct value, not a
pointer. -/
structure ProductDetailResponse (F : Type) where
  Code : String
  Price : F
  Category : CategoryResponse
  Variants : Option (List (VariantResponse F))

/-- Encoding of a `CategoryResponse`: both members always. -/
def CategoryResponse.toJson {F : Type} (c : CategoryResponse) : Json F :=
  Json.object [("code", Json.string c.Code), ("name", Json.string c.Name)]

/-- Encoding of a `VariantResponse`: `price` has `omitempty`, so a `nil`
pointer writes no member; a pointer to any number, zero included, writes it. -/
def VariantResponse.toJson {F : Type} (v : VariantResponse F) : Json F :=
  Json.object
    ([("name", Json.string v.Name), ("sku", Json.string v.SKU)] ++
      (match v.Price with
        | some x => [("price", Json.number x)]
        | none => []))

/-- Encoding of a slice of variants without `omitempty`: `null` for a `nil`
slice, an array otherwise. -/
def variantsToJson {F : Type} : Option (List (VariantResponse F)) → Json F
  | none => Json.null
  | some vs => Json.array (vs.map VariantResponse.toJson)

/-- Encoding of a `ProductResponse`: `category` and `variants` have
`omitempty`, which drops a `nil` pointer and a slice of length zero. -/
def ProductResponse.toJson {F : Type} (p : ProductResponse F) : Json F :=
  Json.object
    ([("code", Json.string p.Code), ("price", Json.number p.Price)] ++
      (match p.Category with
        | some c => [("category", c.toJson)]
        | none => []) ++
      (match p.Variants with
        | some (v :: vs) => [("variants", variantsToJson (some (v :: vs)))]
        | _ => []))

/-- Encoding of a `CatalogListResponse`: no member has `omitempty`. -/
def CatalogListResponse.toJson {F : Type} (r : CatalogListResponse F) : Json F :=
  Json.object
    [("products", match r.Products with
        | none => Json.null
        | some ps => Json.array (ps.map ProductResponse.toJson)),
     ("total", Json.integer r.Total)]

/-- Encoding of a `ProductDetailResponse`: no member has `omitempty`. -/
def ProductDetailResponse.toJson {F : Type} (r : ProductDetailResponse F) : Json F :=
  Json.object
    [("code", Json.string r.Code), ("price", Json.number r.Price),
     ("category", r.Category.toJson), ("variants", variantsToJson r.Variants)]

/-- Function `mapVariantToResponse`; `productPrice` is the pointer argument. -/
def mapVariantToResponse {F : Type} (lib : decimal.Lib F) (v : Variant)
    (productPrice : Option Decimal) : VariantResponse F :=
  let resp : VariantResponse F := { Name := v.Name, SKU := v.SKU, Price := none }
  -- use variant price if available, otherwise use product price
  if !v.Price.IsZero then
    { resp with Price := some (lib.InexactFloat64 v.Price) }
  else
    match productPrice with
    | some p => { resp with Price := some (lib.InexactFloat64 p) }
    | none => resp

/-- Function `mapProductToResponse`. -/
def mapProductToResponse {F : Type} (lib : decimal.Lib F) (p : Product)
    (includeVariants : Bool) : ProductResponse F :=
  let resp : ProductResponse F :=
    { Code := p.Code, Price := lib.InexactFloat64 p.Price, Category := none, Variants := none }
  let resp := match p.Category with
    | some c => { resp with Category := some { Code := c.Code, Name := c.Name } }
    | none => resp
  if includeVariants then
    { resp with Variants := some (p.Variants.map (fun v => mapVariantToResponse lib v (some p.Price))) }
  else resp

/-- Function `parseUintFromString`: `uint(val)` keeps a `uint64` on a 64-bit
target. -/
def parseUintFromString (s : GoString) : Nat × Option strconv.NumError :=
  let r := strconv.ParseUint s 32
  (r.1 % 2 ^ 64, r.2)

/-- The part of an `*http.Request` the handlers read: `Query` is the parsed
`r.URL.Query()`, `PathValues` the values of the route's wildcards. -/
structure Request where
  Method : String
  Query : List (String × GoString)
  PathValues : List (String × String)

/-- Method `url.Values.Get`: the first value under the key, the empty string
when there is none. -/
def Request.Get (r : Request) (key : String) : GoString :=
  match r.Query.find? (fun kv => kv.1 == key) with
  | some kv => kv.2
  | none => []

/-- Method `Request.PathValue`: the empty string when the wildcard is unset. -/
def Request.PathValue (r : Request) (name : String) : String :=
  match r.PathValues.find? (fun kv => kv.1 == name) with
  | some kv => kv.2
  | none => ""

/-- The Go interface `ProductsRepository` of the handler: any implementation,
the store-backed one or a test double. -/
structure ProductsRepository where
  GetProductsByFilter : Int → Int → Option Nat → Option Decimal →
    Option (List Product) × Int × Option String
  GetProductByCode : String → Option Product × Option String

/-- A call a handler made on its repository, with the arguments it passed. -/
inductive RepoCall where
  | GetProductsByFilter (offset limit : Int) (categoryID : Option Nat)
      (priceLessThan : Option Decimal)
  | GetProductByCode (code : String)
  deriving DecidableEq, Repr

/-- What serving one request did: the repository calls in order, and the
response written (`none` when the handler panicked before writing one). -/
structure Served (F : Type) where
  calls : List RepoCall
  response : Option (api.Response F)

/-- The arguments `HandleGet` computes from the query for its call of
`GetProductsByFilter` ("parse query parameters", "parse optional filters"). -/
def HandleGet.args {F : Type} (lib : decimal.Lib F) (r : Request) :
    Int × Int × Option Nat × Option Decimal :=
  -- parse query parameters
  let a := strconv.Atoi (r.Get "offset")
  let offset : Int := if a.2 ≠ none ∨ a.1 < 0 then 0 else a.1
  let b := strconv.Atoi (r.Get "limit")
  let limit : Int := if b.2 ≠ none ∨ b.1 ≤ 0 then 10 else b.1
  -- parse optional filters
  let categoryID : Option Nat :=
    if r.Get "category" ≠ [] then
      let c := parseUintFromString (r.Get "category")
      if c.2 = none then some c.1 else none
    else none
  let priceLessThan : Option Decimal :=
    if r.Get "price_less_than" ≠ [] then
      let d := lib.NewFromString (r.Get "price_less_than")
      if d.2 = none then some d.1 else none
    else none
  (offset, limit, categoryID, priceLessThan)

/-- Method `CatalogHandler.HandleGet`. -/
def HandleGet {F : Type} (fl : json.Floats F) (lib : decimal.Lib F)
    (repo : ProductsRepository) (r : Request) : Served F :=
  match HandleGet.args lib r with
  | (offset, limit, categoryID, priceLessThan) =>
    let calls := [RepoCall.GetProductsByFilter offset limit categoryID priceLessThan]
    match repo.GetProductsByFilter offset limit categoryID priceLessThan with
    | (_, _, some err) =>
      { calls := calls, response := some (api.ErrorResponse 500 err) }
    | (products, total, none) =>
      -- map products to response
      let productResponses := (products.getD []).map (fun p => mapProductToResponse lib p false)
      let response : CatalogListResponse F :=
        { Products := some productResponses, Total := total }
      { calls := calls, response := some (api.OKResponse fl response.toJson) }

/-- The `ProductDetailResponse` that `HandleGetByCode` builds from the product
the repository returned ("map to detail response"). -/
def HandleGetByCode.detail {F : Type} (lib : decimal.Lib F) (product : Product) :
    ProductDetailResponse F :=
  let variantResponses :=
    product.Variants.map (fun v => mapVariantToResponse lib v (some product.Price))
  let categoryResp : CategoryResponse :=
    match product.Category with
    | some c => { Code := c.Code, Name := c.Name }
    | none => { Code := "", Name := "" }
  { Code := product.Code, Price := lib.InexactFloat64 product.Price,
    Category := categoryResp, Variants := some variantResponses }

/-- Method `CatalogHandler.HandleGetByCode`; a `nil` product without an error
is a nil-pointer panic. -/
def HandleGetByCode {F : Type} (fl : json.Floats F) (lib : decimal.Lib F)
    (repo : ProductsRepository) (r : Request) : Served F :=
  let code := r.PathValue "code"
  let calls := [RepoCall.GetProductByCode code]
  match repo.GetProductByCode code with
  | (_, some _) => { calls := calls, response := some (api.ErrorResponse 404 "Product not found") }
  | (none, none) => { calls := calls, response := none }
  | (some product, none) =>
    { calls := calls,
      response := some (api.OKResponse fl (HandleGetByCode.detail lib product).toJson) }

/-- The store-backed repository handed to `NewCatalogHandler`. -/
def storeRepository (db : models.DB) : ProductsRepository :=
  { GetProductsByFilter := models.GetProductsByFilter db,
    GetProductByCode := models.GetProductByCode db }

end catalog

/-! ## `app/categories` -/

namespace categories

open models (Category)

/-- The Go type `CategoryResponse` of the categories handler. -/
structure CategoryResponse where
  Code : String
  Name : String
  deriving DecidableEq, Repr

/-- The Go type `CreateCategoryRequest`. -/
structure CreateCategoryRequest where
  Code : String
  Name : String
  deriving DecidableEq, Repr

/-- Encoding of a `CategoryResponse`: both members always. -/
def CategoryResponse.toJson {F : Type} (c : CategoryResponse) : Json F :=
  Json.object [("code", Json.string c.Code), ("name", Json.string c.Name)]

/-- The part of an `*http.Request` that `HandleCreate` reads: the method and
the bytes of the body. -/
structure Request where
  Method : String
  Body : GoString

/-- The call `json.NewDecoder(r.Body).Decode(&req)`, left uninterpreted: from
the bytes of the body, the request struct after the call and the error. -/
structure Decoder where
  Decode : GoString → CreateCategoryRequest × Option String

/-- The Go interface `CategoriesRepository` of the handler: any implementation.
`Create` receives a pointer: it returns the category as the call left it, and
the error. -/
structure CategoriesRepository where
  GetAll : Option (List Category) × Option String
  Create : Category → Category × Option String
  FindByCode : String → Option Category × Option String

/-- A call a handler made on its repository, with the arguments it passed. -/
inductive RepoCall where
  | GetAll
  | Create (category : Category)
  | FindByCode (code : String)
  deriving DecidableEq, Repr

/-- What serving one request did: the repository calls in order, and the
response written. -/
structure Served (F : Type) where
  calls : List RepoCall
  response : Option (api.Response F)

/-- Method `CategoriesHandler.HandleCreate`. -/
def HandleCreate (F : Type) (fl : json.Floats F) (dec : Decoder)
    (repo : CategoriesRepository) (r : Request) : Served F :=
  if r.Method ≠ "POST" then
    { calls := [], response := some (api.ErrorResponse 405 "Method not allowed") }
  else
    let d := dec.Decode r.Body
    if d.2 ≠ none then
      { calls := [], response := some (api.ErrorResponse 400 "Invalid request body") }
    else
      let req := d.1
      if req.Code = "" ∨ req.Name = "" then
        { calls := [], response := some (api.ErrorResponse 400 "Code and name are required") }
      else
        let category : Category := { ID := 0, Code := req.Code, Name := req.Name }
        let calls := [RepoCall.Create category]
        match repo.Create category with
        | (_, some err) => { calls := calls, response := some (api.ErrorResponse 500 err) }
        | (category, none) =>
          let response : CategoryResponse := { Code := category.Code, Name := category.Name }
          { calls := calls, response := some (api.OKResponse fl response.toJson) }

end categories

/-! ## Stand-ins for the examples -/

namespace Example

/-- A stand-in for the `decimal` library in the examples: a `float64` is
represented by the decimal it was converted from, and the parser accepts the
unsigned integer numerals that `ParseUint` accepts at 64 bits (the empty text
is an error, as in the library). -/
def lib : decimal.Lib Decimal :=
  { InexactFloat64 := fun d => d,
    NewFromString := fun s =>
      match strconv.ParseUint s 64 with
      | (n, none) => (⟨(n : Int), 0⟩, none)
      | (_, some _) => (decimal.Zero, some "can't convert to decimal") }

/-- A stand-in for the `float64` values in the examples, each represented by
the decimal it was converted from: a decimal that is not zero and has an
exponent above 308 is beyond the largest `float64` and stands for an infinity,
which the encoder refuses; the prices of the other example products are small
and convert to finite numbers. -/
def floats : json.Floats Decimal :=
  { unsupported := fun d => decide (d.value ≠ 0 ∧ d.exp > 308),
    format := fun d => if d.value < 0 then "-Inf" else "+Inf" }

/-- The product of the handler tests: `PROD001` at 10.99 in category
`clothing`, with variant A at 11.99 and variant B without a price. -/
def prod001 : models.Product :=
  { ID := 1, Code := "PROD001", Price := ⟨1099, -2⟩, CategoryID := some 1,
    Category := some { ID := 1, Code := "clothing", Name := "Clothing" },
    Variants :=
      [{ ID := 1, ProductID := 1, Name := "Variant A", SKU := "SKU001A", Price := ⟨1199, -2⟩ },
       { ID := 2, ProductID := 1, Name := "Variant B", SKU := "SKU001B", Price := decimal.Zero }] }

/-- A product without a price and without a category, whose one variant has no
price either. -/
def unpriced : models.Product :=
  { ID := 2, Code := "PROD002", Price := decimal.Zero, CategoryID := none,
    Category := none,
    Variants :=
      [{ ID := 3, ProductID := 2, Name := "Variant C", SKU := "SKU002C", Price := decimal.Zero }] }

/-- A product at 5.00 in category 2, without variants. -/
def prod003 : models.Product :=
  { ID := 3, Code := "PROD003", Price := ⟨500, -2⟩, CategoryID := some 2,
    Category := some { ID := 2, Code := "shoes", Name := "Shoes" }, Variants := [] }

/-- A store with the three example products that answers every query. -/
def db : models.DB :=
  { rows := [prod001, unpriced, prod003], countErr := none, findErr := none }

/-- A request of the given method with the given query and path values. -/
def request (query : List (String × GoString)) (pathValues : List (String × String)) :
    catalog.Request :=
  { Method := "GET", Query := query, PathValues := pathValues }

/-- A stand-in for the JSON decoder in the examples: it knows the body `{}`
(an object without members: both fields stay empty) and the body
`{"code":"a","name":"b"}`, and rejects every other text. -/
def decoder : categories.Decoder :=
  { Decode := fun body =>
      if body = [123, 125] then ({ Code := "", Name := "" }, none)
      else if body = [123, 34, 99, 111, 100, 101, 34, 58, 34, 97, 34, 44,
          34, 110, 97, 109, 101, 34, 58, 34, 98, 34, 125] then
        ({ Code := "a", Name := "b" }, none)
      else ({ Code := "", Name := "" }, some "invalid character") }

/-- A categories repository that stores what it is given: `Create` sets the
identifier and reports no error. -/
def categoriesRepository : categories.CategoriesRepository :=
  { GetAll := (some [], none),
    Create := fun c => ({ c with ID := 1 }, none),
    FindByCode := fun _ => (none, some "record not found") }

end Example

/-! ## What the specification says a text denotes

These definitions follow the wording of the specification ("parse as integer",
"unsigned base-10 integer fitting 32 bits"), not the code; the theorems below
compare `strconv` with them. -/

namespace Spec

/-- An ASCII decimal digit, `'0'` to `'9'`. -/
def isDigit (c : Byte) : Bool := decide (48 ≤ c.val ∧ c.val ≤ 57)

/-- The number `n` followed by the decimal digits `cs` denotes. -/
def digitsFrom (n : Nat) (cs : List Byte) : Nat :=
  cs.foldl (fun n c => n * 10 + (c.val - 48)) n

/-- The natural number a non-empty string of decimal digits denotes; `none`
for every other text. -/
def unsignedNumeral (s : GoString) : Option Nat :=
  if s ≠ [] ∧ s.all isDigit = true then some (digitsFrom 0 s) else none

/-- The integer a decimal numeral with an optional sign `+` or `-` denotes;
`none` for every other text. -/
def signedNumeral (s : GoString) : Option Int :=
  match s with
  | [] => none
  | c :: rest =>
    if c.val = 43 then (unsignedNumeral rest).map (fun (n : Nat) => (n : Int))
    else if c.val = 45 then (unsignedNumeral rest).map (fun (n : Nat) => -(n : Int))
    else (unsignedNumeral s).map (fun (n : Nat) => (n : Int))

/-- The text parses as an integer in the range of Go's 64-bit `int`. -/
def parsesAsInt (s : GoString) : Option Int :=
  (signedNumeral s).filter (fun n => decide (-(2 : Int) ^ 63 ≤ n ∧ n < 2 ^ 63))

/-- The text parses as an unsigned base-10 integer fitting 32 bits. -/
def parsesAsUint32 (s : GoString) : Option Nat :=
  (unsignedNumeral s).filter (fun n => decide (n < 2 ^ 32))

/-- A product satisfies all the filters present: its `category_id` equals the
category filter, and its price is strictly less than the ceiling. -/
def satisfies (categoryID : Option Nat) (priceLessThan : Option Decimal)
    (p : models.Product) : Bool :=
  (match categoryID with
    | some c => p.CategoryID == some c
    | none => true) &&
  (match priceLessThan with
    | some d => p.Price.lt d
    | none => true)

end Spec

end Catalog

/-! ## Theorems -/

namespace Catalog

open strconv Spec decimal models catalog

/-! ### Decimal numerals -/

theorem digitsFrom_cons (n : Nat) (c : Byte) (cs : List Byte) :
    digitsFrom n (c :: cs) = digitsFrom (n * 10 + (c.val - 48)) cs := rfl

theorem le_digitsFrom (cs : List Byte) (n : Nat) : n ≤ digitsFrom n cs := by
  induction cs generalizing n with
  | nil => exact le_refl _
  | cons c cs ih =>
    rw [digitsFrom_cons]
    have := ih (n * 10 + (c.val - 48))
    omega

theorem all_isDigit_cons (c : Byte) (cs : List Byte) :
    (c :: cs).all isDigit = true ↔ (48 ≤ c.val ∧ c.val ≤ 57) ∧ cs.all isDigit = true := by
  simp [isDigit]

theorem digitsFrom_succ_le (cs : List Byte) (n : Nat) (h : cs.all isDigit = true) :
    digitsFrom n cs + 1 ≤ (n + 1) * 10 ^ cs.length := by
  induction cs generalizing n with
  | nil => simp [digitsFrom]
  | cons c cs ih =>
    rw [all_isDigit_cons] at h
    rw [digitsFrom_cons, List.length_cons, pow_succ]
    have h1 := ih (n * 10 + (c.val - 48)) h.2
    have h2 : n * 10 + (c.val - 48) + 1 ≤ (n + 1) * 10 := by omega
    calc digitsFrom (n * 10 + (c.val - 48)) cs + 1
        ≤ (n * 10 + (c.val - 48) + 1) * 10 ^ cs.length := h1
      _ ≤ ((n + 1) * 10) * 10 ^ cs.length := Nat.mul_le_mul_right _ h2
      _ = (n + 1) * (10 ^ cs.length * 10) := by ring

/-- The digit loop of `ParseUint` computes the value of the digits when they
are all digits and the value fits; otherwise it reports a syntax error with
value 0 or a range error with value `maxVal`. -/
theorem parseUintLoop_spec (M : Nat) (hM : M < 2 ^ 64) (cs : List Byte) (n : Nat)
    (hn : n ≤ M) :
    (cs.all isDigit = true ∧ digitsFrom n cs ≤ M →
      parseUintLoop M cs n = (digitsFrom n cs, none)) ∧
    (¬ (cs.all isDigit = true ∧ digitsFrom n cs ≤ M) →
      parseUintLoop M cs n = (0, some NumError.ErrSyntax) ∨
      parseUintLoop M cs n = (M, some NumError.ErrRange)) := by
  induction cs generalizing n with
  | nil => simp [parseUintLoop, digitsFrom, hn]
  | cons c cs ih =>
    rw [all_isDigit_cons, digitsFrom_cons]
    unfold parseUintLoop
    have hmono := le_digitsFrom cs (n * 10 + (c.val - 48))
    by_cases hd : 48 ≤ c.val ∧ c.val ≤ 57
    · have hd10 : ¬ (c.val - 48 ≥ 10) := by omega
      simp only [hd, and_self, if_true, true_and, hd10, if_false, maxUint64]
      by_cases hc : n ≥ (2 ^ 64 - 1) / 10 + 1
      · simp only [hc, if_true]
        refine ⟨fun h => ?_, fun _ => Or.inr trivial⟩
        omega
      · simp only [hc, if_false]
        have h10 : n * 10 % 2 ^ 64 = n * 10 := Nat.mod_eq_of_lt (by omega)
        simp only [h10]
        by_cases ho : n * 10 + (c.val - 48) < 2 ^ 64
        · have h1 : (n * 10 + (c.val - 48)) % 2 ^ 64 = n * 10 + (c.val - 48) :=
            Nat.mod_eq_of_lt ho
          simp only [h1]
          by_cases hm : n * 10 + (c.val - 48) > M
          · have : n * 10 + (c.val - 48) < n * 10 ∨ n * 10 + (c.val - 48) > M := Or.inr hm
            simp only [this, if_true]
            refine ⟨fun h => ?_, fun _ => Or.inr trivial⟩
            omega
          · have : ¬ (n * 10 + (c.val - 48) < n * 10 ∨ n * 10 + (c.val - 48) > M) := by omega
            simp only [this, if_false]
            exact ih _ (by omega)
        · have : (n * 10 + (c.val - 48)) % 2 ^ 64 < n * 10 ∨
              (n * 10 + (c.val - 48)) % 2 ^ 64 > M := by omega
          simp only [this, if_true]
          refine ⟨fun h => ?_, fun _ => Or.inr trivial⟩
          omega
    · simp only [hd, if_false, false_and, false_implies, not_false_eq_true, true_implies,
        true_and]
      generalize lower c = l
      by_cases hl : 97 ≤ l ∧ l ≤ 122
      · have : (l - 97 + 10) % 256 ≥ 10 := by omega
        simp only [hl, and_self, if_true, this]
        exact Or.inl trivial
      · simp only [hl, if_false]
        exact Or.inl trivial

theorem unsignedNumeral_eq_some (s : GoString) (v : Nat) :
    unsignedNumeral s = some v ↔ s ≠ [] ∧ s.all isDigit = true ∧ digitsFrom 0 s = v := by
  unfold unsignedNumeral
  by_cases h : s ≠ [] ∧ s.all isDigit = true
  · simp only [h, and_self, if_true, Option.some.injEq, ne_eq, not_false_eq_true, true_and]
  · simp only [h, if_false]
    constructor
    · intro h'; cases h'
    · intro h'; exact absurd ⟨h'.1, h'.2.1⟩ h

theorem unsignedNumeral_eq_none (s : GoString) :
    unsignedNumeral s = none ↔ ¬ (s ≠ [] ∧ s.all isDigit = true) := by
  unfold unsignedNumeral
  by_cases h : s ≠ [] ∧ s.all isDigit = true
  · simp [h]
  · simp only [h, if_false, not_false_eq_true]

/-- Function `ParseUint` at base 10 refines the unsigned numeral of the
specification: it succeeds exactly on a numeral that fits `bitSize` bits. -/
theorem ParseUint_spec (s : GoString) (b B : Nat) (hb : b ≤ 64)
    (hB : B = if b = 0 then 64 else b) :
    (∀ v, unsignedNumeral s = some v → v < 2 ^ B → ParseUint s b = (v, none)) ∧
    ((∀ v, unsignedNumeral s = some v → ¬ v < 2 ^ B) →
      ParseUint s b = (0, some NumError.ErrSyntax) ∨
      ParseUint s b = (2 ^ B - 1, some NumError.ErrRange)) := by
  have hB64 : B ≤ 64 := by subst hB; split <;> omega
  have hpos : 0 < 2 ^ B := Nat.pow_pos (by norm_num)
  have hM : 2 ^ B - 1 < 2 ^ 64 := by
    have : 2 ^ B ≤ 2 ^ 64 := Nat.pow_le_pow_right (by norm_num) hB64
    omega
  unfold ParseUint
  by_cases hs : s = []
  · subst hs
    simp [unsignedNumeral]
  · have hb' : ¬ b > 64 := by omega
    simp only [hs, if_false, hb', intSize, ← hB]
    have key := parseUintLoop_spec (2 ^ B - 1) hM s 0 (Nat.zero_le _)
    constructor
    · intro v hv hlt
      rw [unsignedNumeral_eq_some] at hv
      obtain ⟨_, hall, hval⟩ := hv
      rw [key.1 ⟨hall, by omega⟩, hval]
    · intro h
      apply key.2
      rintro ⟨hall, hle⟩
      exact h (digitsFrom 0 s) ((unsignedNumeral_eq_some s _).2 ⟨hs, hall, rfl⟩) (by omega)

theorem toInt64_of_range (x : Int) (h1 : -(2 : Int) ^ 63 ≤ x) (h2 : x < 2 ^ 63) :
    toInt64 x = x := by
  unfold toInt64
  norm_num at h1 h2 ⊢
  omega

/-- The fast path of `Atoi` never overflows: on at most 18 digits the loop
computes the value of the digits, and rejects any byte that is not a digit. -/
theorem atoiLoop_spec (cs : List Byte) (n : Nat) (h : (n + 1) * 10 ^ cs.length ≤ 10 ^ 18) :
    atoiLoop cs (n : Int) =
      if cs.all isDigit = true then some ((digitsFrom n cs : Nat) : Int) else none := by
  induction cs generalizing n with
  | nil => simp [atoiLoop, digitsFrom]
  | cons c cs ih =>
    unfold atoiLoop
    rw [List.length_cons, pow_succ] at h
    by_cases hd : 48 ≤ c.val ∧ c.val ≤ 57
    · have hch : (c.val + 256 - 48) % 256 = c.val - 48 := by omega
      have h9 : ¬ (c.val - 48 > 9) := by omega
      have hpos : 0 < 10 ^ cs.length := Nat.pow_pos (by norm_num)
      have hstep : (n * 10 + (c.val - 48) + 1) * 10 ^ cs.length ≤ 10 ^ 18 := by
        calc (n * 10 + (c.val - 48) + 1) * 10 ^ cs.length
            ≤ ((n + 1) * 10) * 10 ^ cs.length := Nat.mul_le_mul_right _ (by omega)
          _ = (n + 1) * (10 ^ cs.length * 10) := by ring
          _ ≤ 10 ^ 18 := h
      have hlt : n * 10 + (c.val - 48) + 1 ≤ 10 ^ 18 :=
        le_trans (Nat.le_mul_of_pos_right _ hpos) hstep
      have hcast : ((n : Int) * 10 + ((c.val - 48 : Nat) : Int)) =
          ((n * 10 + (c.val - 48) : Nat) : Int) := by push_cast; ring
      simp only [hch, h9, if_false, hcast]
      rw [toInt64_of_range _ (by omega) (by norm_num at hlt ⊢; omega), ih _ hstep,
        digitsFrom_cons]
      simp [isDigit, hd]
    · have hch : (c.val + 256 - 48) % 256 > 9 := by
        have := c.isLt
        omega
      have hnd : ¬ ((c :: cs).all isDigit = true) := by
        rw [all_isDigit_cons]
        exact fun h' => hd h'.1
      simp only [hch, if_true, hnd, if_false, Bool.false_eq_true]

theorem parsesAsInt_plus (c : Byte) (rest : List Byte) (h : c.val = 43) :
    parsesAsInt (c :: rest) =
      (unsignedNumeral rest).bind (fun v => if v < 2 ^ 63 then some (v : Int) else none) := by
  unfold parsesAsInt signedNumeral
  simp only []
  rw [if_pos h]
  cases unsignedNumeral rest with
  | none => rfl
  | some v =>
    simp only [Option.map_some', Option.filter, Option.some_bind]
    by_cases hv : v < 2 ^ 63
    · have : -(2 : Int) ^ 63 ≤ (v : Int) ∧ (v : Int) < 2 ^ 63 := by
        norm_num at hv ⊢; omega
      simp only [decide_eq_true_eq]
      rw [if_pos this, if_pos hv]
    · have : ¬ (-(2 : Int) ^ 63 ≤ (v : Int) ∧ (v : Int) < 2 ^ 63) := by
        norm_num at hv ⊢; omega
      simp only [decide_eq_true_eq]
      rw [if_neg this, if_neg hv]

theorem parsesAsInt_minus (c : Byte) (rest : List Byte) (h : c.val = 45) :
    parsesAsInt (c :: rest) =
      (unsignedNumeral rest).bind (fun v => if v ≤ 2 ^ 63 then some (-(v : Int)) else none) := by
  unfold parsesAsInt signedNumeral
  have h43 : ¬ (c.val = 43) := by omega
  simp only []
  rw [if_neg h43, if_pos h]
  cases unsignedNumeral rest with
  | none => rfl
  | some v =>
    simp only [Option.map_some', Option.filter, Option.some_bind]
    by_cases hv : v ≤ 2 ^ 63
    · have : -(2 : Int) ^ 63 ≤ -(v : Int) ∧ -(v : Int) < 2 ^ 63 := by
        norm_num at hv ⊢; omega
      simp only [decide_eq_true_eq]
      rw [if_pos this, if_pos hv]
    · have : ¬ (-(2 : Int) ^ 63 ≤ -(v : Int) ∧ -(v : Int) < 2 ^ 63) := by
        norm_num at hv ⊢; omega
      simp only [decide_eq_true_eq]
      rw [if_neg this, if_neg hv]

theorem parsesAsInt_plain (c : Byte) (rest : List Byte) (h43 : c.val ≠ 43) (h45 : c.val ≠ 45) :
    parsesAsInt (c :: rest) =
      (unsignedNumeral (c :: rest)).bind
        (fun v => if v < 2 ^ 63 then some (v : Int) else none) := by
  unfold parsesAsInt signedNumeral
  simp only []
  rw [if_neg h43, if_neg h45]
  cases unsignedNumeral (c :: rest) with
  | none => rfl
  | some v =>
    simp only [Option.map_some', Option.filter, Option.some_bind]
    by_cases hv : v < 2 ^ 63
    · have : -(2 : Int) ^ 63 ≤ (v : Int) ∧ (v : Int) < 2 ^ 63 := by
        norm_num at hv ⊢; omega
      simp only [decide_eq_true_eq]
      rw [if_pos this, if_pos hv]
    · have : ¬ (-(2 : Int) ^ 63 ≤ (v : Int) ∧ (v : Int) < 2 ^ 63) := by
        norm_num at hv ⊢; omega
      simp only [decide_eq_true_eq]
      rw [if_neg this, if_neg hv]

/-- The range check of `ParseInt` (at `bitSize` 0): a numeral `v` after the
sign is accepted exactly when the signed value fits 64 bits. -/
theorem ParseInt_convert_spec (neg : Bool) (s1 : GoString) :
    (∀ v, unsignedNumeral s1 = some v → (if neg = true then v ≤ 2 ^ 63 else v < 2 ^ 63) →
      ParseInt.convert neg s1 0 = ((if neg = true then -(v : Int) else (v : Int)), none)) ∧
    ((∀ v, unsignedNumeral s1 = some v → ¬ (if neg = true then v ≤ 2 ^ 63 else v < 2 ^ 63)) →
      (ParseInt.convert neg s1 0).2 ≠ none) := by
  have key := ParseUint_spec s1 0 64 (by norm_num) rfl
  constructor
  · intro v hv hok
    have hlt : v < 2 ^ 64 := by
      cases neg <;> simp at hok <;> omega
    have hpu := key.1 v hv hlt
    unfold ParseInt.convert
    simp only [hpu, intSize]
    cases neg
    · simp only [Bool.false_eq_true, if_false] at hok
      norm_num at hok
      have h1 : ¬ (9223372036854775808 ≤ v) := by omega
      simp [h1]
      exact toInt64_of_range _ (by norm_num; omega) (by norm_num; omega)
    · simp only [if_true] at hok
      norm_num at hok
      have h1 : ¬ (9223372036854775808 < v) := by omega
      simp [h1]
      unfold toInt64
      norm_num
      omega
  · intro hno
    unfold ParseInt.convert
    rcases hcase : unsignedNumeral s1 with _ | v
    · have := key.2 (fun v hv => by rw [hcase] at hv; cases hv)
      rcases this with h | h
      · simp [h]
      · simp only [h, intSize]
        cases neg <;> simp
    · have hbad := hno v hcase
      by_cases hlt : v < 2 ^ 64
      · have hpu := key.1 v hcase hlt
        simp only [hpu, intSize]
        cases neg
        · simp only [Bool.false_eq_true, if_false] at hbad
          norm_num at hbad
          simp [hbad]
        · simp only [if_true] at hbad
          norm_num at hbad
          simp [hbad]
      · have := key.2 (fun w hw => by rw [hcase] at hw; cases hw; exact hlt)
        rcases this with h | h
        · simp [h]
        · simp only [h, intSize]
          cases neg <;> simp

/-- The fast path of `Atoi` on at most 18 bytes after the sign: it accepts
exactly the numerals, whose value then fits 63 bits. -/
theorem Atoi_fast_spec (neg : Bool) (s1 : GoString) (hlen : s1.length ≤ 18) (hne : s1 ≠ []) :
    (∀ v, unsignedNumeral s1 = some v →
      v < 2 ^ 63 ∧ Atoi.fast neg s1 = ((if neg = true then -(v : Int) else (v : Int)), none)) ∧
    (unsignedNumeral s1 = none → Atoi.fast neg s1 = (0, some NumError.ErrSyntax)) := by
  have hpow : 10 ^ s1.length ≤ 10 ^ 18 := Nat.pow_le_pow_right (by norm_num) hlen
  have hloop := atoiLoop_spec s1 0 (by simpa using hpow)
  simp only [Nat.cast_zero] at hloop
  constructor
  · intro v hv
    rw [unsignedNumeral_eq_some] at hv
    obtain ⟨_, hall, hval⟩ := hv
    have hb := digitsFrom_succ_le s1 0 hall
    rw [hval] at hb
    have hv18 : v < 10 ^ 18 := by omega
    have hv63 : v < 2 ^ 63 := by norm_num at hv18 ⊢; omega
    refine ⟨hv63, ?_⟩
    unfold Atoi.fast
    rw [hloop, if_pos hall, hval]
    cases neg
    · simp
    · simp only [if_true]
      rw [toInt64_of_range _ (by norm_num at hv63 ⊢; omega) (by norm_num; omega)]
  · intro hnone
    rw [unsignedNumeral_eq_none] at hnone
    have hall : ¬ (s1.all isDigit = true) := fun h => hnone ⟨hne, h⟩
    unfold Atoi.fast
    rw [hloop, if_neg hall]

theorem parsesAsInt_range (s : GoString) (n : Int) (h : parsesAsInt s = some n) :
    -(2 : Int) ^ 63 ≤ n ∧ n < 2 ^ 63 := by
  unfold parsesAsInt at h
  cases hs : signedNumeral s with
  | none => rw [hs] at h; cases h
  | some m =>
    rw [hs] at h
    simp only [Option.filter] at h
    split at h
    · rename_i hm
      cases h
      simpa using hm
    · cases h

/-- Function `ParseInt` at base 10 and `bitSize` 0 refines "parses as an
integer". -/
theorem ParseInt_spec (s : GoString) :
    (∀ n, parsesAsInt s = some n → ParseInt s 0 = (n, none)) ∧
    (parsesAsInt s = none → (ParseInt s 0).2 ≠ none) := by
  cases s with
  | nil => simp [parsesAsInt, signedNumeral, ParseInt, Option.filter]
  | cons c rest =>
    unfold ParseInt
    simp only []
    by_cases h43 : c.val = 43
    · rw [parsesAsInt_plus c rest h43, if_pos h43]
      have key := ParseInt_convert_spec false rest
      simp only [Bool.false_eq_true, if_false] at key
      rcases hu : unsignedNumeral rest with _ | v
      · have := key.2 (fun v hv => by rw [hu] at hv; cases hv)
        simpa using this
      · by_cases hv : v < 2 ^ 63
        · have := key.1 v hu hv
          simp only [Option.some_bind, if_pos hv]
          simp [this]
        · have := key.2 (fun w hw => by rw [hu] at hw; cases hw; exact hv)
          simp only [Option.some_bind, if_neg hv]
          simpa using this
    · rw [if_neg h43]
      by_cases h45 : c.val = 45
      · rw [parsesAsInt_minus c rest h45, if_pos h45]
        have key := ParseInt_convert_spec true rest
        simp only [if_true] at key
        rcases hu : unsignedNumeral rest with _ | v
        · have := key.2 (fun v hv => by rw [hu] at hv; cases hv)
          simpa using this
        · by_cases hv : v ≤ 2 ^ 63
          · have := key.1 v hu hv
            simp only [Option.some_bind, if_pos hv]
            simp [this]
          · have := key.2 (fun w hw => by rw [hu] at hw; cases hw; exact hv)
            simp only [Option.some_bind, if_neg hv]
            simpa using this
      · rw [parsesAsInt_plain c rest h43 h45, if_neg h45]
        have key := ParseInt_convert_spec false (c :: rest)
        simp only [Bool.false_eq_true, if_false] at key
        rcases hu : unsignedNumeral (c :: rest) with _ | v
        · have := key.2 (fun v hv => by rw [hu] at hv; cases hv)
          simpa using this
        · by_cases hv : v < 2 ^ 63
          · have := key.1 v hu hv
            simp only [Option.some_bind, if_pos hv]
            simp [this]
          · have := key.2 (fun w hw => by rw [hu] at hw; cases hw; exact hv)
            simp only [Option.some_bind, if_neg hv]
            simpa using this

/-- Function `Atoi` refines the specification's "parses as an integer": it
returns `n` without error exactly on the signed decimal numerals of a value
`n` in the range of `int`, and an error on every other text. -/
theorem Atoi_spec (s : GoString) :
    (∀ n, parsesAsInt s = some n → Atoi s = (n, none)) ∧
    (parsesAsInt s = none → (Atoi s).2 ≠ none) := by
  cases s with
  | nil => simp [parsesAsInt, signedNumeral, Atoi, ParseInt, Option.filter]
  | cons c rest =>
    by_cases hlen : (c :: rest).length < 19
    · -- fast path
      have hcond : (intSize = 32 ∧ 0 < (c :: rest).length ∧ (c :: rest).length < 10) ∨
          (intSize = 64 ∧ 0 < (c :: rest).length ∧ (c :: rest).length < 19) :=
        Or.inr ⟨rfl, by simp, hlen⟩
      have hrest : rest.length ≤ 18 := by simp at hlen; omega
      unfold Atoi
      simp only [hcond, if_true]
      by_cases h43 : c.val = 43
      · have hs : c.val = 45 ∨ c.val = 43 := Or.inr h43
        have h45 : ¬ (c.val = 45) := by omega
        rw [parsesAsInt_plus c rest h43, if_pos hs]
        by_cases hr : rest = []
        · subst hr; simp [unsignedNumeral]
        · have hl : ¬ (rest.length < 1) := by
            cases rest with
            | nil => exact absurd rfl hr
            | cons _ _ => simp
          rw [if_neg hl]
          have key := Atoi_fast_spec (decide (c.val = 45)) rest hrest hr
          simp only [h45, decide_False, Bool.false_eq_true, if_false] at key ⊢
          rcases hu : unsignedNumeral rest with _ | v
          · simp [key.2 hu]
          · obtain ⟨hv, hf⟩ := key.1 v hu
            norm_num at hv
            simp [hv, hf]
      · by_cases h45 : c.val = 45
        · have hs : c.val = 45 ∨ c.val = 43 := Or.inl h45
          rw [parsesAsInt_minus c rest h45, if_pos hs]
          by_cases hr : rest = []
          · subst hr; simp [unsignedNumeral]
          · have hl : ¬ (rest.length < 1) := by
              cases rest with
              | nil => exact absurd rfl hr
              | cons _ _ => simp
            rw [if_neg hl]
            have key := Atoi_fast_spec (decide (c.val = 45)) rest hrest hr
            simp only [h45, decide_True, if_true] at key ⊢
            rcases hu : unsignedNumeral rest with _ | v
            · simp [key.2 hu]
            · obtain ⟨hv, hf⟩ := key.1 v hu
              have hv' : v ≤ 9223372036854775808 := by norm_num at hv; omega
              simp [hv', hf]
        · have hs : ¬ (c.val = 45 ∨ c.val = 43) := by omega
          rw [parsesAsInt_plain c rest h43 h45, if_neg hs]
          have key := Atoi_fast_spec (decide (c.val = 45)) (c :: rest) (by omega) (by simp)
          simp only [h45, decide_False, Bool.false_eq_true, if_false] at key ⊢
          rcases hu : unsignedNumeral (c :: rest) with _ | v
          · simp [key.2 hu]
          · obtain ⟨hv, hf⟩ := key.1 v hu
            norm_num at hv
            simp [hv, hf]
    · -- slow path
      have hcond : ¬ ((intSize = 32 ∧ 0 < (c :: rest).length ∧ (c :: rest).length < 10) ∨
          (intSize = 64 ∧ 0 < (c :: rest).length ∧ (c :: rest).length < 19)) := by
        simp only [intSize]
        omega
      unfold Atoi
      simp only [hcond, if_false]
      have key := ParseInt_spec (c :: rest)
      constructor
      · intro n hn
        have hr := parsesAsInt_range _ n hn
        rw [key.1 n hn, toInt64_of_range n hr.1 hr.2]
      · intro hn
        exact key.2 hn

/-! ### The arguments `HandleGet` passes to the repository -/

theorem HandleGet_calls {F : Type} (fl : json.Floats F) (lib : decimal.Lib F) (repo : ProductsRepository)
    (r : Request) :
    (HandleGet fl lib repo r).calls =
      [RepoCall.GetProductsByFilter (HandleGet.args lib r).1 (HandleGet.args lib r).2.1
        (HandleGet.args lib r).2.2.1 (HandleGet.args lib r).2.2.2] := by
  unfold HandleGet
  split
  rename_i offset limit categoryID priceLessThan heq
  rw [heq]
  split <;> rfl

theorem HandleGet_args_limit {F : Type} (lib : decimal.Lib F) (r : Request) :
    (HandleGet.args lib r).2.1 =
      match parsesAsInt (r.Get "limit") with
      | some n => if n > 0 then n else 10
      | none => 10 := by
  have key := Atoi_spec (r.Get "limit")
  show (if (Atoi (r.Get "limit")).2 ≠ none ∨ (Atoi (r.Get "limit")).1 ≤ 0 then (10 : Int)
    else (Atoi (r.Get "limit")).1) = _
  rcases h : parsesAsInt (r.Get "limit") with _ | n
  · have := key.2 h
    simp [this]
  · rw [key.1 n h]
    by_cases hn : n > 0
    · have : ¬ (n ≤ 0) := by omega
      simp [hn, this]
    · have : n ≤ 0 := by omega
      simp [hn, this]

theorem HandleGet_args_offset {F : Type} (lib : decimal.Lib F) (r : Request) :
    (HandleGet.args lib r).1 =
      match parsesAsInt (r.Get "offset") with
      | some n => if n ≥ 0 then n else 0
      | none => 0 := by
  have key := Atoi_spec (r.Get "offset")
  show (if (Atoi (r.Get "offset")).2 ≠ none ∨ (Atoi (r.Get "offset")).1 < 0 then (0 : Int)
    else (Atoi (r.Get "offset")).1) = _
  rcases h : parsesAsInt (r.Get "offset") with _ | n
  · have := key.2 h
    simp [this]
  · rw [key.1 n h]
    by_cases hn : n ≥ 0
    · have : ¬ (n < 0) := by omega
      simp [hn, this]
    · have : n < 0 := by omega
      simp [hn, this]

theorem Decimal.IsZero_iff (d : Decimal) : d.IsZero = true ↔ d.toRat = 0 := by
  unfold Decimal.IsZero Decimal.toRat
  have h10 : (10 : ℚ) ^ d.exp ≠ 0 := zpow_ne_zero _ (by norm_num)
  simp [h10]

theorem HandleGetByCode_ok {F : Type} (fl : json.Floats F) (lib : decimal.Lib F)
    (repo : ProductsRepository) (r : Request) (product : Product)
    (h : repo.GetProductByCode (r.PathValue "code") = (some product, none)) :
    HandleGetByCode fl lib repo r =
      { calls := [RepoCall.GetProductByCode (r.PathValue "code")],
        response := some (api.OKResponse fl (HandleGetByCode.detail lib product).toJson) } := by
  unfold HandleGetByCode
  simp only [h]

/-! ### Encoding the responses -/

theorem OKResponse_status {F : Type} (fl : json.Floats F) (data : Json F) :
    (api.OKResponse fl data).status = 200 := by
  unfold api.OKResponse
  split <;> rfl

/-- When the encoder accepts the value, `OKResponse` sends it as the body. -/
theorem OKResponse_of_encodable {F : Type} (fl : json.Floats F) (data : Json F)
    (h : data.encodeError fl = none) :
    api.OKResponse fl data =
      { status := 200, contentType := "application/json", body := api.Body.json data } := by
  unfold api.OKResponse
  rw [h]

theorem encodeErrorList_map {F α : Type} (fl : json.Floats F) (f : α → Json F) (xs : List α)
    (h : ∀ x ∈ xs, (f x).encodeError fl = none) :
    Json.encodeErrorList fl (xs.map f) = none := by
  induction xs with
  | nil => rfl
  | cons x xs ih =>
    simp only [List.map_cons, Json.encodeErrorList]
    rw [h x (List.mem_cons_self _ _)]
    exact ih (fun y hy => h y (List.mem_cons_of_mem _ hy))

/-- A variant response encodes when the variant's price and the product's
price convert to numbers the encoder accepts. -/
theorem variant_encodable {F : Type} (fl : json.Floats F) (lib : decimal.Lib F) (v : Variant)
    (p : Decimal) (hv : fl.unsupported (lib.InexactFloat64 v.Price) = false)
    (hp : fl.unsupported (lib.InexactFloat64 p) = false) :
    (mapVariantToResponse lib v (some p)).toJson.encodeError fl = none := by
  unfold mapVariantToResponse
  by_cases hz : v.Price.IsZero = true
  · simp [hz, VariantResponse.toJson, Json.encodeError, Json.encodeErrorFields, hp]
  · simp [hz, VariantResponse.toJson, Json.encodeError, Json.encodeErrorFields, hv]

/-- The detail body encodes when the product's price and the prices of its
variants convert to numbers the encoder accepts. -/
theorem detail_encodable {F : Type} (fl : json.Floats F) (lib : decimal.Lib F)
    (product : Product) (hp : fl.unsupported (lib.InexactFloat64 product.Price) = false)
    (hv : ∀ v ∈ product.Variants, fl.unsupported (lib.InexactFloat64 v.Price) = false) :
    (HandleGetByCode.detail lib product).toJson.encodeError fl = none := by
  have hl := encodeErrorList_map fl
    (VariantResponse.toJson ∘ fun v => mapVariantToResponse lib v (some product.Price))
    product.Variants
    (fun v hmem => variant_encodable fl lib v product.Price (hv v hmem) hp)
  unfold HandleGetByCode.detail ProductDetailResponse.toJson variantsToJson
  simp only [List.map_map, Json.encodeError, Json.encodeErrorFields, hp, CategoryResponse.toJson,
    Bool.false_eq_true, if_false, hl]

/-- A list-mode product encodes when its price converts to a number the
encoder accepts. -/
theorem listProduct_encodable {F : Type} (fl : json.Floats F) (lib : decimal.Lib F)
    (q : Product) (hq : fl.unsupported (lib.InexactFloat64 q.Price) = false) :
    (mapProductToResponse lib q false).toJson.encodeError fl = none := by
  unfold mapProductToResponse ProductResponse.toJson
  cases q.Category <;>
    simp [Json.encodeError, Json.encodeErrorFields, hq, CategoryResponse.toJson]

/-- The envelope of `HandleGet` encodes when the price of every product of the
page converts to a number the encoder accepts. -/
theorem envelope_encodable {F : Type} (fl : json.Floats F) (lib : decimal.Lib F)
    (products : List Product) (total : Int)
    (h : ∀ q ∈ products, fl.unsupported (lib.InexactFloat64 q.Price) = false) :
    (CatalogListResponse.toJson
      { Products := some (products.map (fun p => mapProductToResponse lib p false)),
        Total := total }).encodeError fl = none := by
  have hl := encodeErrorList_map fl
    (ProductResponse.toJson ∘ fun p => mapProductToResponse lib p false) products
    (fun q hmem => listProduct_encodable fl lib q (h q hmem))
  unfold CatalogListResponse.toJson
  simp only [List.map_map, Json.encodeError, Json.encodeErrorFields, hl]

/-! ### The repository query -/

theorem normalizeLimit_eq (limit : Int) :
    models.normalizeLimit limit =
      if limit ≤ 0 then 10 else if limit > 100 then 100 else limit := by
  unfold models.normalizeLimit
  by_cases h0 : limit ≤ 0
  · simp [h0]
  · simp [h0]

theorem normalizeLimit_bounds (limit : Int) :
    1 ≤ models.normalizeLimit limit ∧ models.normalizeLimit limit ≤ 100 := by
  rw [normalizeLimit_eq]
  split
  · omega
  · split <;> omega

theorem Find_length_le (db : DB) (q : Statement) (l : Int) (hl : 0 ≤ l) :
    (db.Find (q.Limit l)).1.length ≤ l.toNat := by
  unfold DB.Find Statement.Limit
  cases db.findErr with
  | some e => simp
  | none =>
    have hl' : l ≥ 0 := hl
    simp only [hl', if_true, List.length_take]
    exact Nat.min_le_left _ _

theorem GetProductsByFilter_page_length (db : DB) (offset limit : Int)
    (categoryID : Option Nat) (priceLessThan : Option Decimal) :
    ((models.GetProductsByFilter db offset limit categoryID priceLessThan).1.getD []).length
      ≤ 100 := by
  have hb := normalizeLimit_bounds limit
  have hf := Find_length_le db ((models.applyFilters categoryID priceLessThan).Offset offset)
    (models.normalizeLimit limit) (by omega)
  unfold models.GetProductsByFilter
  simp only []
  rcases hc : db.Count (models.applyFilters categoryID priceLessThan) with ⟨total, _ | e⟩
  · rcases hfd : db.Find (((models.applyFilters categoryID priceLessThan).Offset offset).Limit
        (models.normalizeLimit limit)) with ⟨products, _ | e⟩
    · rw [hfd] at hf
      simp only [Option.getD_some]
      have : (models.normalizeLimit limit).toNat ≤ 100 := by omega
      exact le_trans hf this
    · simp
  · simp

theorem matching_applyFilters (db : DB) (categoryID : Option Nat)
    (priceLessThan : Option Decimal) (o l : Option Int) :
    db.matching { models.applyFilters categoryID priceLessThan with offset := o, limit := l } =
      db.rows.filter (satisfies categoryID priceLessThan) := by
  unfold DB.matching
  apply List.filter_congr
  intro p _
  cases categoryID <;> cases priceLessThan <;>
    simp [models.applyFilters, Statement.Where, satisfies]

/-- With a store that answers, `GetProductsByFilter` returns the rows that
satisfy the filters, after `offset` of them, up to the normalised limit, and
the number of all rows that satisfy the filters. -/
theorem GetProductsByFilter_ok (db : DB) (offset limit : Int) (categoryID : Option Nat)
    (priceLessThan : Option Decimal) (hc : db.countErr = none) (hf : db.findErr = none) :
    models.GetProductsByFilter db offset limit categoryID priceLessThan =
      (some (((db.rows.filter (satisfies categoryID priceLessThan)).drop offset.toNat).take
          (models.normalizeLimit limit).toNat),
        (((db.rows.filter (satisfies categoryID priceLessThan)).length : Nat) : Int), none) := by
  have hb := normalizeLimit_bounds limit
  have hm := matching_applyFilters db categoryID priceLessThan
  have hcount : db.Count (models.applyFilters categoryID priceLessThan) =
      ((((db.rows.filter (satisfies categoryID priceLessThan)).length : Nat) : Int), none) := by
    unfold DB.Count
    rw [hc]
    simp only []
    rw [← hm none none]
    rfl
  have hfind : db.Find (((models.applyFilters categoryID priceLessThan).Offset offset).Limit
        (models.normalizeLimit limit)) =
      (((db.rows.filter (satisfies categoryID priceLessThan)).drop offset.toNat).take
          (models.normalizeLimit limit).toNat, none) := by
    unfold DB.Find
    rw [hf]
    have hl : models.normalizeLimit limit ≥ 0 := by omega
    have hmm := hm (some offset) (some (models.normalizeLimit limit))
    simp only [Statement.Offset, Statement.Limit] at hmm ⊢
    rw [hmm]
    simp only [hl, if_true]
    by_cases ho : offset > 0
    · simp only [ho, if_true]
    · have : offset.toNat = 0 := by omega
      simp only [ho, if_false, this, List.drop_zero]
  unfold models.GetProductsByFilter
  simp only [hcount, hfind]

theorem ParseUint32_spec (s : GoString) :
    (∀ v, parsesAsUint32 s = some v → parseUintFromString s = (v, none)) ∧
    (parsesAsUint32 s = none → (parseUintFromString s).2 ≠ none) := by
  have key := ParseUint_spec s 32 32 (by norm_num) rfl
  unfold parsesAsUint32 parseUintFromString
  rcases hu : unsignedNumeral s with _ | v
  · have := key.2 (fun v hv => by rw [hu] at hv; cases hv)
    constructor
    · intro v hv; simp [Option.filter] at hv
    · intro _
      rcases this with h | h <;> simp [h]
  · by_cases hv : v < 2 ^ 32
    · have h := key.1 v hu hv
      have hmod : v % 2 ^ 64 = v := Nat.mod_eq_of_lt (by norm_num at hv ⊢; omega)
      constructor
      · intro w hw
        simp only [Option.filter, decide_eq_true_eq, if_pos hv, Option.some.injEq] at hw
        subst hw
        simp only [h, hmod]
      · intro hn
        simp only [Option.filter, decide_eq_true_eq, if_pos hv] at hn
        cases hn
    · have := key.2 (fun w hw => by rw [hu] at hw; cases hw; exact hv)
      constructor
      · intro w hw
        simp only [Option.filter, decide_eq_true_eq, if_neg hv] at hw
        cases hw
      · intro _
        rcases this with h | h <;> simp [h]

theorem HandleGet_args_category {F : Type} (lib : decimal.Lib F) (r : Request) :
    (HandleGet.args lib r).2.2.1 = parsesAsUint32 (r.Get "category") := by
  have key := ParseUint32_spec (r.Get "category")
  show (if r.Get "category" ≠ [] then
      (if (parseUintFromString (r.Get "category")).2 = none
        then some (parseUintFromString (r.Get "category")).1 else none)
    else none) = _
  rcases h : parsesAsUint32 (r.Get "category") with _ | v
  · have := key.2 h
    simp [this]
  · have hne : r.Get "category" ≠ [] := by
      intro he
      rw [he] at h
      simp [parsesAsUint32, unsignedNumeral, Option.filter] at h
    rw [key.1 v h]
    simp [hne]

theorem Decimal.toRat_eq_rescale (d : Decimal) (e : Int) (h : e ≤ d.exp) :
    d.toRat = ((d.rescale e : Int) : ℚ) * (10 : ℚ) ^ e := by
  unfold Decimal.toRat Decimal.rescale
  have hexp : d.exp = e + ((d.exp - e).toNat : Int) := by omega
  have h10 : (10 : ℚ) ≠ 0 := by norm_num
  conv_lhs => rw [hexp, zpow_add₀ h10, zpow_natCast]
  push_cast
  ring

/-- The comparison of the model is the comparison of the numbers denoted. -/
theorem Decimal.lt_iff (a b : Decimal) : a.lt b = true ↔ a.toRat < b.toRat := by
  have hpos : (0 : ℚ) < (10 : ℚ) ^ (min a.exp b.exp) := zpow_pos (by norm_num) _
  rw [Decimal.toRat_eq_rescale a _ (min_le_left _ _),
    Decimal.toRat_eq_rescale b _ (min_le_right _ _), mul_lt_mul_right hpos, Int.cast_lt]
  unfold Decimal.lt
  exact decide_eq_true_iff

/-- A product satisfies the filters exactly when its `category_id` is the
category filter, if there is one, and its price is numerically below the
ceiling, if there is one. -/
theorem satisfies_iff (categoryID : Option Nat) (priceLessThan : Option Decimal) (p : Product) :
    satisfies categoryID priceLessThan p = true ↔
      (∀ c, categoryID = some c → p.CategoryID = some c) ∧
      (∀ d, priceLessThan = some d → p.Price.toRat < d.toRat) := by
  cases categoryID <;> cases priceLessThan <;> simp [satisfies, Decimal.lt_iff]

/-- The store-backed repository returns a product whenever it returns no
error: it never answers a lookup with neither. -/
theorem storeRepository_GetProductByCode_ne (db : DB) (code : String) :
    (storeRepository db).GetProductByCode code ≠ (none, none) := by
  unfold storeRepository models.GetProductByCode
  simp only []
  cases db.findErr with
  | some e => simp
  | none =>
    cases db.rows.find? (fun p => p.Code == code) with
    | some p => simp
    | none => simp

/-- The calls `HandleCreate` makes on its repository: one `Create` with the
decoded code and name when the request passes every check, none otherwise. -/
theorem HandleCreate_calls (F : Type) (fl : json.Floats F)
    (dec : categories.Decoder)
    (repo : categories.CategoriesRepository) (r : categories.Request) :
    (categories.HandleCreate F fl dec repo r).calls =
      if r.Method = "POST" ∧ (dec.Decode r.Body).2 = none ∧
          (dec.Decode r.Body).1.Code ≠ "" ∧ (dec.Decode r.Body).1.Name ≠ ""
      then [categories.RepoCall.Create
        { ID := 0, Code := (dec.Decode r.Body).1.Code, Name := (dec.Decode r.Body).1.Name }]
      else [] := by
  unfold categories.HandleCreate
  by_cases hm : r.Method = "POST"
  · by_cases hd : (dec.Decode r.Body).2 = none
    · by_cases hc : (dec.Decode r.Body).1.Code = ""
      · simp [hm, hd, hc]
      · by_cases hn : (dec.Decode r.Body).1.Name = ""
        · simp [hm, hd, hn]
        · simp only [hm, hd, hc, hn, ne_eq, not_true_eq_false, not_false_eq_true, if_false,
            or_self, and_self, if_true]
          split <;> rfl
    · simp [hm, hd]
  · simp [hm]

/-! ### The claims -/

/-- C1. Price resolution in `mapVariantToResponse`: for every variant and every
product price passed as a non-nil pointer, the price on the variant response
is the conversion of the variant's price when that price is not zero, and the
conversion of the product price when it is zero. In the test's product (10.99)
the variant priced 11.99 shows 11.99 and the variant priced 0 shows 10.99. -/
theorem C1_price_resolution {F : Type} (lib : decimal.Lib F) (v : Variant) (p : Decimal) :
    (mapVariantToResponse lib v (some p)).Price =
        (if v.Price.toRat = 0 then some (lib.InexactFloat64 p)
         else some (lib.InexactFloat64 v.Price)) ∧
    (mapVariantToResponse lib
        { ID := 1, ProductID := 1, Name := "Variant A", SKU := "SKU001A", Price := ⟨1199, -2⟩ }
        (some ⟨1099, -2⟩)).Price = some (lib.InexactFloat64 ⟨1199, -2⟩) ∧
    (mapVariantToResponse lib
        { ID := 2, ProductID := 1, Name := "Variant B", SKU := "SKU001B", Price := decimal.Zero }
        (some ⟨1099, -2⟩)).Price = some (lib.InexactFloat64 ⟨1099, -2⟩) := by
  refine ⟨?_, rfl, rfl⟩
  unfold mapVariantToResponse
  by_cases hz : v.Price.IsZero = true
  · have := (Decimal.IsZero_iff v.Price).1 hz
    simp [hz, this]
  · have : ¬ (v.Price.toRat = 0) := fun h => hz ((Decimal.IsZero_iff v.Price).2 h)
    simp [hz, this]

/-- C2, as stated, fails: for the product without a price whose one variant has
no price either, the variant of the detail response carries a price (the
conversion of the product's zero price), and the encoded variant has a `price`
member. -/
theorem C2_counterexample :
    (HandleGetByCode.detail Example.lib Example.unpriced).Variants =
      some [{ Name := "Variant C", SKU := "SKU002C", Price := some decimal.Zero }] ∧
    (HandleGetByCode Example.floats Example.lib
        { GetProductsByFilter := fun _ _ _ _ => (none, 0, none),
          GetProductByCode := fun _ => (some Example.unpriced, none) }
        (Example.request [] [("code", "PROD002")])).response =
      some { status := 200, contentType := "application/json",
             body := api.Body.json (Json.object
        [("code", Json.string "PROD002"), ("price", Json.number decimal.Zero),
         ("category", Json.object [("code", Json.string ""), ("name", Json.string "")]),
         ("variants", Json.array [Json.object
            [("name", Json.string "Variant C"), ("sku", Json.string "SKU002C"),
             ("price", Json.number decimal.Zero)]])]) } := by
  constructor <;> rfl

/-- C2, amended. In the detail response of `HandleGetByCode` every variant
carries a price, never a nil one: the conversion of the variant's price when
it is not zero, and otherwise the conversion of the product's price, also when
that price is zero. When the prices of the product and of its variants convert
to numbers the JSON encoder accepts, the body written has that `price` member
in every variant object (the converted zero is written, the member is not
left out). -/
theorem C2_variant_price_always_present {F : Type} (fl : json.Floats F) (lib : decimal.Lib F)
    (repo : ProductsRepository) (r : Request) (product : Product)
    (h : repo.GetProductByCode (r.PathValue "code") = (some product, none)) :
    (HandleGetByCode.detail lib product).Variants =
      some (product.Variants.map (fun v =>
        { Name := v.Name, SKU := v.SKU,
          Price := some
            (lib.InexactFloat64 (if v.Price.IsZero = true then product.Price else v.Price)) })) ∧
    (HandleGetByCode fl lib repo r).response =
      some (api.OKResponse fl (HandleGetByCode.detail lib product).toJson) ∧
    ((fl.unsupported (lib.InexactFloat64 product.Price) = false ∧
        ∀ v ∈ product.Variants, fl.unsupported (lib.InexactFloat64 v.Price) = false) →
      ∃ resp, (HandleGetByCode fl lib repo r).response = some resp ∧ resp.status = 200 ∧
        resp.body.member "variants" =
          some (Json.array (product.Variants.map (fun v =>
            Json.object
              [("name", Json.string v.Name), ("sku", Json.string v.SKU),
               ("price", Json.number
                  (lib.InexactFloat64
                    (if v.Price.IsZero = true then product.Price else v.Price)))])))) := by
  refine ⟨?_, by rw [HandleGetByCode_ok fl lib repo r product h], ?_⟩
  · unfold HandleGetByCode.detail
    simp only [Option.some.injEq]
    apply List.map_congr_left
    intro v _
    unfold mapVariantToResponse
    by_cases hz : v.Price.IsZero = true
    · simp [hz]
    · simp [hz]
  · rintro ⟨hp, hv⟩
    rw [HandleGetByCode_ok fl lib repo r product h,
      OKResponse_of_encodable fl _ (detail_encodable fl lib product hp hv)]
    refine ⟨_, rfl, rfl, ?_⟩
    show some (variantsToJson (HandleGetByCode.detail lib product).Variants) = _
    unfold HandleGetByCode.detail variantsToJson
    simp only [List.map_map]
    congr 2
    apply List.map_congr_left
    intro v _
    simp only [Function.comp, mapVariantToResponse, VariantResponse.toJson]
    by_cases hz : v.Price.IsZero = true
    · simp [hz]
    · simp [hz]

/-- C2, amended, at the example product without a price. -/
theorem C2_variant_price_always_present_witness :
    (HandleGetByCode.detail Example.lib Example.unpriced).Variants =
      some [{ Name := "Variant C", SKU := "SKU002C", Price := some decimal.Zero }] ∧
    ∃ resp, (HandleGetByCode Example.floats Example.lib
        { GetProductsByFilter := fun _ _ _ _ => (none, 0, none),
          GetProductByCode := fun _ => (some Example.unpriced, none) }
        (Example.request [] [("code", "PROD002")])).response = some resp ∧ resp.status = 200 ∧
      resp.body.member "variants" =
        some (Json.array [Json.object
          [("name", Json.string "Variant C"), ("sku", Json.string "SKU002C"),
           ("price", Json.number decimal.Zero)]]) :=
  have h := C2_variant_price_always_present Example.floats Example.lib
    { GetProductsByFilter := fun _ _ _ _ => (none, 0, none),
      GetProductByCode := fun _ => (some Example.unpriced, none) }
    (Example.request [] [("code", "PROD002")]) Example.unpriced rfl
  ⟨h.1, h.2.2 (by decide)⟩

/-- C3, as stated, fails: on `limit=500` the handler calls the repository with
limit 500, above the ceiling of 100. -/
theorem C3_counterexample :
    (HandleGet Example.floats Example.lib (storeRepository Example.db)
        (Example.request [("limit", [53, 48, 48])] [])).calls =
      [RepoCall.GetProductsByFilter 0 500 none none] ∧ ¬ ((500 : Int) ≤ 100) := by
  constructor
  · rfl
  · decide

/-- C3, amended. The limit `HandleGet` passes to the repository is positive but
not capped by the handler; the ceiling of 100 is the repository's: the
repository normalises the passed limit into 1..100 and the page it returns to
the handler has at most 100 products. -/
theorem C3_ceiling_enforced_by_repository {F : Type} (fl : json.Floats F) (lib : decimal.Lib F)
    (repo : ProductsRepository) (r : Request) :
    ∃ offset limit categoryID priceLessThan,
      (HandleGet fl lib repo r).calls =
        [RepoCall.GetProductsByFilter offset limit categoryID priceLessThan] ∧
      1 ≤ limit ∧
      1 ≤ models.normalizeLimit limit ∧ models.normalizeLimit limit ≤ 100 ∧
      ∀ db : DB,
        ((models.GetProductsByFilter db offset limit categoryID priceLessThan).1.getD []).length
          ≤ 100 := by
  refine ⟨_, _, _, _, HandleGet_calls fl lib repo r, ?_, (normalizeLimit_bounds _).1,
    (normalizeLimit_bounds _).2, fun db => GetProductsByFilter_page_length db _ _ _ _⟩
  rw [HandleGet_args_limit]
  rcases parsesAsInt (r.Get "limit") with _ | n
  · decide
  · simp only []
    split <;> omega

/-- C4. Limit normalisation in `HandleGet`: the limit passed to the repository
is `n` when the `limit` text parses as an integer `n > 0` in the range of
`int`, and the default 10 for every other text (empty, not a numeral, out of
range, zero or negative); `limit=20` gives 20 and a missing limit gives 10. -/
theorem C4_limit_normalisation {F : Type} (fl : json.Floats F) (lib : decimal.Lib F)
    (repo : ProductsRepository) (r : Request) :
    (∃ offset categoryID priceLessThan,
      (HandleGet fl lib repo r).calls =
        [RepoCall.GetProductsByFilter offset
          (match parsesAsInt (r.Get "limit") with
            | some n => if n > 0 then n else 10
            | none => 10)
          categoryID priceLessThan]) ∧
    (HandleGet fl lib repo (Example.request [("limit", [50, 48])] [])).calls =
      [RepoCall.GetProductsByFilter 0 20 none none] ∧
    (HandleGet fl lib repo (Example.request [] [])).calls =
      [RepoCall.GetProductsByFilter 0 10 none none] := by
  refine ⟨⟨(HandleGet.args lib r).1, (HandleGet.args lib r).2.2.1,
    (HandleGet.args lib r).2.2.2, ?_⟩, ?_, ?_⟩
  · rw [HandleGet_calls, HandleGet_args_limit]
  · rw [HandleGet_calls]; rfl
  · rw [HandleGet_calls]; rfl

/-- C5. Offset normalisation in `HandleGet`: the offset passed to the
repository is `n` when the `offset` text parses as an integer `n ≥ 0` in the
range of `int`, and 0 for every other text (empty, not a numeral, out of range
or negative); `offset=1&limit=20` calls the repository with (1, 20, nil, nil). -/
theorem C5_offset_normalisation {F : Type} (fl : json.Floats F) (lib : decimal.Lib F)
    (repo : ProductsRepository) (r : Request) :
    (∃ limit categoryID priceLessThan,
      (HandleGet fl lib repo r).calls =
        [RepoCall.GetProductsByFilter
          (match parsesAsInt (r.Get "offset") with
            | some n => if n ≥ 0 then n else 0
            | none => 0)
          limit categoryID priceLessThan]) ∧
    (HandleGet fl lib repo (Example.request [("offset", [49]), ("limit", [50, 48])] [])).calls =
      [RepoCall.GetProductsByFilter 1 20 none none] := by
  refine ⟨⟨(HandleGet.args lib r).2.1, (HandleGet.args lib r).2.2.1,
    (HandleGet.args lib r).2.2.2, ?_⟩, ?_⟩
  · rw [HandleGet_calls, HandleGet_args_offset]
  · rw [HandleGet_calls]; rfl

/-- C6. Limit clamp in the repository: the effective limit of
`GetProductsByFilter` is 10 when `limit ≤ 0`, 100 when `limit > 100` and
`limit` itself otherwise, so it lies in 1..100 for every caller; with a store
that answers, the page is the matching rows after the offset, cut at that
effective limit. -/
theorem C6_repository_limit_clamp (db : DB) (offset limit : Int) (categoryID : Option Nat)
    (priceLessThan : Option Decimal) (hc : db.countErr = none) (hf : db.findErr = none) :
    models.normalizeLimit limit =
        (if limit ≤ 0 then 10 else if limit > 100 then 100 else limit) ∧
    1 ≤ models.normalizeLimit limit ∧ models.normalizeLimit limit ≤ 100 ∧
    (models.GetProductsByFilter db offset limit categoryID priceLessThan).1 =
      some (((db.rows.filter (satisfies categoryID priceLessThan)).drop offset.toNat).take
        (if limit ≤ 0 then 10 else if limit > 100 then 100 else limit).toNat) := by
  refine ⟨normalizeLimit_eq limit, (normalizeLimit_bounds limit).1,
    (normalizeLimit_bounds limit).2, ?_⟩
  rw [GetProductsByFilter_ok db offset limit categoryID priceLessThan hc hf,
    normalizeLimit_eq]

/-- C6 at the example store, with limit 500 and offset 1. -/
theorem C6_repository_limit_clamp_witness :
    models.normalizeLimit 500 =
        (if (500 : Int) ≤ 0 then (10 : Int) else if (500 : Int) > 100 then 100 else 500) ∧
    1 ≤ models.normalizeLimit 500 ∧ models.normalizeLimit 500 ≤ 100 ∧
    (models.GetProductsByFilter Example.db 1 500 none none).1 =
      some (((Example.db.rows.filter (satisfies none none)).drop (1 : Int).toNat).take
        (if (500 : Int) ≤ 0 then (10 : Int) else if (500 : Int) > 100 then 100 else 500).toNat) :=
  C6_repository_limit_clamp Example.db 1 500 none none rfl rfl

/-- C7. Variants by shaping mode: the list-mode response of a product has a nil
`Variants` and its encoding no `variants` member, whatever the product's
variants, and `HandleGet` sends the envelope of these list-mode responses; the
detail response `HandleGetByCode` builds has a non-nil `Variants` with one
entry per variant of the product (none when the product has none), its
encoding always has a `variants` member, the array of these entries, and the
handler sends that detail response. When the prices convert to numbers the
JSON encoder accepts, the bodies written are these encodings. -/
theorem C7_variants_by_mode {F : Type} (fl : json.Floats F) (lib : decimal.Lib F)
    (repo : ProductsRepository)
    (r rd : Request) (products : Option (List Product)) (total : Int) (p q : Product)
    (hl : repo.GetProductsByFilter (HandleGet.args lib r).1 (HandleGet.args lib r).2.1
      (HandleGet.args lib r).2.2.1 (HandleGet.args lib r).2.2.2 = (products, total, none))
    (hd : repo.GetProductByCode (rd.PathValue "code") = (some p, none)) :
    (mapProductToResponse lib q false).Variants = none ∧
    (mapProductToResponse lib q false).toJson.member "variants" = none ∧
    (HandleGet fl lib repo r).response =
      some (api.OKResponse fl (CatalogListResponse.toJson
        { Products := some ((products.getD []).map (fun x => mapProductToResponse lib x false)),
          Total := total })) ∧
    ((∀ x ∈ products.getD [], fl.unsupported (lib.InexactFloat64 x.Price) = false) →
      ∃ resp, (HandleGet fl lib repo r).response = some resp ∧
        resp.body.member "products" =
          some (Json.array ((products.getD []).map
            (fun x => (mapProductToResponse lib x false).toJson)))) ∧
    (∃ vs, (HandleGetByCode.detail lib p).Variants = some vs ∧
      vs.length = p.Variants.length) ∧
    (HandleGetByCode.detail lib p).toJson.member "variants" =
      some (Json.array (p.Variants.map
        (fun v => (mapVariantToResponse lib v (some p.Price)).toJson))) ∧
    (HandleGetByCode fl lib repo rd).response =
      some (api.OKResponse fl (HandleGetByCode.detail lib p).toJson) ∧
    ((fl.unsupported (lib.InexactFloat64 p.Price) = false ∧
        ∀ v ∈ p.Variants, fl.unsupported (lib.InexactFloat64 v.Price) = false) →
      ∃ resp js, (HandleGetByCode fl lib repo rd).response = some resp ∧
        resp.body.member "variants" = some (Json.array js) ∧
        js = p.Variants.map (fun v => (mapVariantToResponse lib v (some p.Price)).toJson) ∧
        js.length = p.Variants.length) := by
  have hlist : (mapProductToResponse lib q false).Variants = none := by
    unfold mapProductToResponse
    cases q.Category <;> rfl
  have hget : (HandleGet fl lib repo r).response =
      some (api.OKResponse fl (CatalogListResponse.toJson
        { Products := some ((products.getD []).map (fun x => mapProductToResponse lib x false)),
          Total := total })) := by
    unfold HandleGet
    split
    rename_i offset limit categoryID priceLessThan heq
    rw [heq] at hl
    simp only [hl]
  have hmem : (HandleGetByCode.detail lib p).toJson.member "variants" =
      some (Json.array (p.Variants.map
        (fun v => (mapVariantToResponse lib v (some p.Price)).toJson))) := by
    show some (variantsToJson (HandleGetByCode.detail lib p).Variants) = _
    unfold HandleGetByCode.detail variantsToJson
    simp only [List.map_map]
    rfl
  refine ⟨hlist, ?_, hget, ?_, ⟨_, rfl, by simp⟩, hmem, ?_, ?_⟩
  · unfold ProductResponse.toJson
    rw [hlist]
    cases (mapProductToResponse lib q false).Category <;> rfl
  · intro hlp
    rw [hget, OKResponse_of_encodable fl _ (envelope_encodable fl lib _ total hlp)]
    exact ⟨_, rfl, by simp [CatalogListResponse.toJson, api.Body.member, Json.member]⟩
  · rw [HandleGetByCode_ok fl lib repo rd p hd]
  · rintro ⟨hp, hv⟩
    rw [HandleGetByCode_ok fl lib repo rd p hd,
      OKResponse_of_encodable fl _ (detail_encodable fl lib p hp hv)]
    exact ⟨_, _, rfl, hmem, rfl, by simp⟩

/-- C7 at the example store: the listing of all products and the detail of
`PROD001`, which has two variants. -/
theorem C7_variants_by_mode_witness :
    (mapProductToResponse Example.lib Example.prod001 false).Variants = none ∧
    (mapProductToResponse Example.lib Example.prod001 false).toJson.member "variants" = none ∧
    (∃ resp, (HandleGet Example.floats Example.lib (storeRepository Example.db)
        (Example.request [] [])).response = some resp ∧
      resp.body.member "products" =
        some (Json.array (Example.db.rows.map
          (fun x => (mapProductToResponse Example.lib x false).toJson)))) ∧
    (∃ vs, (HandleGetByCode.detail Example.lib Example.prod001).Variants = some vs ∧
      vs.length = 2) ∧
    (∃ resp js, (HandleGetByCode Example.floats Example.lib (storeRepository Example.db)
        (Example.request [] [("code", "PROD001")])).response = some resp ∧
      resp.body.member "variants" = some (Json.array js) ∧
      js = [Json.object [("name", Json.string "Variant A"), ("sku", Json.string "SKU001A"),
              ("price", Json.number ⟨1199, -2⟩)],
            Json.object [("name", Json.string "Variant B"), ("sku", Json.string "SKU001B"),
              ("price", Json.number ⟨1099, -2⟩)]] ∧
      js.length = 2) :=
  have h := C7_variants_by_mode Example.floats Example.lib (storeRepository Example.db)
    (Example.request [] []) (Example.request [] [("code", "PROD001")])
    (some Example.db.rows) 3 Example.prod001 Example.prod001 rfl rfl
  ⟨h.1, h.2.1, h.2.2.2.1 (by decide), h.2.2.2.2.1, h.2.2.2.2.2.2.2 (by decide)⟩

/-- C8, as stated, fails: for the example product without a category the
detail response is not without a category: its `category` member is present,
an object whose code and name are empty strings. -/
theorem C8_counterexample :
    Example.unpriced.Category = none ∧
    ((HandleGetByCode Example.floats Example.lib
        { GetProductsByFilter := fun _ _ _ _ => (none, 0, none),
          GetProductByCode := fun _ => (some Example.unpriced, none) }
        (Example.request [] [("code", "PROD002")])).response.map
      (fun resp => resp.body.member "category")) =
      some (some (Json.object [("code", Json.string ""), ("name", Json.string "")])) := by
  constructor <;> rfl

/-- C8, amended. The detail response `HandleGetByCode` builds always carries a
category, a struct and not a pointer: with exactly the category's code and
name for a product that has a category, and with an empty code and an empty
name for a product that has none; its encoding always has that `category`
object. When the product's prices convert to numbers the JSON encoder accepts,
the body written has that `category` member. -/
theorem C8_detail_category {F : Type} (fl : json.Floats F) (lib : decimal.Lib F)
    (repo : ProductsRepository)
    (r : Request) (product : Product)
    (h : repo.GetProductByCode (r.PathValue "code") = (some product, none)) :
    (HandleGetByCode.detail lib product).Category =
      (match product.Category with
        | some c => { Code := c.Code, Name := c.Name }
        | none => { Code := "", Name := "" }) ∧
    (HandleGetByCode.detail lib product).toJson.member "category" =
      some (match product.Category with
        | some c => Json.object [("code", Json.string c.Code), ("name", Json.string c.Name)]
        | none => Json.object [("code", Json.string ""), ("name", Json.string "")]) ∧
    (HandleGetByCode fl lib repo r).response =
      some (api.OKResponse fl (HandleGetByCode.detail lib product).toJson) ∧
    ((fl.unsupported (lib.InexactFloat64 product.Price) = false ∧
        ∀ v ∈ product.Variants, fl.unsupported (lib.InexactFloat64 v.Price) = false) →
      ∃ resp, (HandleGetByCode fl lib repo r).response = some resp ∧ resp.status = 200 ∧
        resp.body.member "category" =
          some (match product.Category with
            | some c => Json.object [("code", Json.string c.Code), ("name", Json.string c.Name)]
            | none => Json.object [("code", Json.string ""), ("name", Json.string "")])) := by
  have hmem : (HandleGetByCode.detail lib product).toJson.member "category" =
      some (match product.Category with
        | some c => Json.object [("code", Json.string c.Code), ("name", Json.string c.Name)]
        | none => Json.object [("code", Json.string ""), ("name", Json.string "")]) := by
    show some (HandleGetByCode.detail lib product).Category.toJson = _
    unfold HandleGetByCode.detail
    cases product.Category <;> rfl
  refine ⟨rfl, hmem, by rw [HandleGetByCode_ok fl lib repo r product h], ?_⟩
  rintro ⟨hp, hv⟩
  rw [HandleGetByCode_ok fl lib repo r product h,
    OKResponse_of_encodable fl _ (detail_encodable fl lib product hp hv)]
  exact ⟨_, rfl, rfl, hmem⟩

/-- C8, amended, at the details of `PROD002`, which has no category, and of
`PROD001`, which has one. -/
theorem C8_detail_category_witness :
    (∃ resp, (HandleGetByCode Example.floats Example.lib (storeRepository Example.db)
        (Example.request [] [("code", "PROD002")])).response = some resp ∧ resp.status = 200 ∧
      resp.body.member "category" =
        some (Json.object [("code", Json.string ""), ("name", Json.string "")])) ∧
    (∃ resp, (HandleGetByCode Example.floats Example.lib (storeRepository Example.db)
        (Example.request [] [("code", "PROD001")])).response = some resp ∧ resp.status = 200 ∧
      resp.body.member "category" =
        some (Json.object
          [("code", Json.string "clothing"), ("name", Json.string "Clothing")])) :=
  ⟨(C8_detail_category Example.floats Example.lib (storeRepository Example.db)
      (Example.request [] [("code", "PROD002")]) Example.unpriced rfl).2.2.2 (by decide),
   (C8_detail_category Example.floats Example.lib (storeRepository Example.db)
      (Example.request [] [("code", "PROD001")]) Example.prod001 rfl).2.2.2 (by decide)⟩

/-- C9. Total count: with a store that answers, the total returned by
`GetProductsByFilter` is the number of stored products that satisfy every
filter present, that is whose `category_id` is the category filter and whose
price is numerically strictly below the ceiling; it is the same for any other
offset and limit; `HandleGet` copies it unchanged into the `Total` of the
envelope it sends, and when the stored prices convert to numbers the JSON
encoder accepts, the body written has it as its `total`; it is not bounded by
the page: in the example store a page of one product comes with total 3. -/
theorem C9_total_count {F : Type} (fl : json.Floats F) (lib : decimal.Lib F) (db : DB)
    (r : Request) (offset limit offset' limit' : Int)
    (categoryID : Option Nat) (priceLessThan : Option Decimal) (p : Product)
    (hc : db.countErr = none) (hf : db.findErr = none) :
    (models.GetProductsByFilter db offset limit categoryID priceLessThan).2.1 =
      ((db.rows.countP (satisfies categoryID priceLessThan) : Nat) : Int) ∧
    (satisfies categoryID priceLessThan p = true ↔
      (match categoryID with
        | some c => p.CategoryID = some c
        | none => True) ∧
      (match priceLessThan with
        | some d => p.Price.toRat < d.toRat
        | none => True)) ∧
    (models.GetProductsByFilter db offset' limit' categoryID priceLessThan).2.1 =
      (models.GetProductsByFilter db offset limit categoryID priceLessThan).2.1 ∧
    (∃ products, (HandleGet fl lib (storeRepository db) r).response =
      some (api.OKResponse fl (CatalogListResponse.toJson
        { Products := some products,
          Total := ((db.rows.countP
            (satisfies (HandleGet.args lib r).2.2.1 (HandleGet.args lib r).2.2.2) : Nat) : Int) }))) ∧
    ((∀ q ∈ db.rows, fl.unsupported (lib.InexactFloat64 q.Price) = false) →
      ∃ resp, (HandleGet fl lib (storeRepository db) r).response = some resp ∧
        resp.status = 200 ∧
        resp.body.member "total" =
          some (Json.integer ((db.rows.countP
            (satisfies (HandleGet.args lib r).2.2.1 (HandleGet.args lib r).2.2.2) : Nat) : Int))) ∧
    (models.GetProductsByFilter Example.db 0 1 none none =
      (some [Example.prod001], 3, none)) := by
  have hcp : ∀ c d, ((db.rows.filter (satisfies c d)).length : Nat) = db.rows.countP (satisfies c d) :=
    fun c d => (List.countP_eq_length_filter _ _).symm
  have hget : (HandleGet fl lib (storeRepository db) r).response =
      some (api.OKResponse fl (CatalogListResponse.toJson
        { Products := some
            ((((db.rows.filter
              (satisfies (HandleGet.args lib r).2.2.1 (HandleGet.args lib r).2.2.2)).drop
                (HandleGet.args lib r).1.toNat).take
                  (models.normalizeLimit (HandleGet.args lib r).2.1).toNat).map
              (fun x => mapProductToResponse lib x false)),
          Total := ((db.rows.countP
            (satisfies (HandleGet.args lib r).2.2.1 (HandleGet.args lib r).2.2.2) : Nat) : Int) })) := by
    unfold HandleGet
    split
    rename_i o l c d heq
    rw [heq]
    simp only [storeRepository, GetProductsByFilter_ok db o l c d hc hf, hcp, Option.getD_some]
  refine ⟨?_, ?_, ?_, ⟨_, hget⟩, ?_, rfl⟩
  · rw [GetProductsByFilter_ok db offset limit categoryID priceLessThan hc hf, hcp]
  · rw [satisfies_iff]
    cases categoryID <;> cases priceLessThan <;> simp
  · rw [GetProductsByFilter_ok db offset limit categoryID priceLessThan hc hf,
      GetProductsByFilter_ok db offset' limit' categoryID priceLessThan hc hf]
  · intro hq
    have henc := envelope_encodable fl lib
      (((db.rows.filter
        (satisfies (HandleGet.args lib r).2.2.1 (HandleGet.args lib r).2.2.2)).drop
          (HandleGet.args lib r).1.toNat).take
            (models.normalizeLimit (HandleGet.args lib r).2.1).toNat)
      ((db.rows.countP
        (satisfies (HandleGet.args lib r).2.2.1 (HandleGet.args lib r).2.2.2) : Nat) : Int)
      (fun q hmem => hq q
        (List.mem_of_mem_filter (List.mem_of_mem_drop (List.mem_of_mem_take hmem))))
    rw [hget, OKResponse_of_encodable fl _ henc]
    exact ⟨_, rfl, rfl, rfl⟩

/-- C9 at the example store, with category 1 and a ceiling of 11, and at the
request `price_less_than=11`: `PROD001` (10.99, category 1) satisfies the
filters, and the totals are 1 and 3. -/
theorem C9_total_count_witness :
    (models.GetProductsByFilter Example.db 0 1 (some 1) (some ⟨11, 0⟩)).2.1 = 1 ∧
    satisfies (some 1) (some ⟨11, 0⟩) Example.prod001 = true ∧
    (models.GetProductsByFilter Example.db 2 50 (some 1) (some ⟨11, 0⟩)).2.1 =
      (models.GetProductsByFilter Example.db 0 1 (some 1) (some ⟨11, 0⟩)).2.1 ∧
    (∃ resp, (HandleGet Example.floats Example.lib (storeRepository Example.db)
        (Example.request [("price_less_than", [49, 49])] [])).response = some resp ∧
      resp.status = 200 ∧
      resp.body.member "total" = some (Json.integer 3)) ∧
    (models.GetProductsByFilter Example.db 0 1 none none =
      (some [Example.prod001], 3, none)) :=
  have h := C9_total_count Example.floats Example.lib Example.db
    (Example.request [("price_less_than", [49, 49])] [])
    0 1 2 50 (some 1) (some ⟨11, 0⟩) Example.prod001 rfl rfl
  ⟨h.1, rfl, h.2.2.1, h.2.2.2.2.1 (by decide), h.2.2.2.2.2⟩

/-- C10. Permissive filters in `HandleGet`: the category filter passed to the
repository is the parsed value when the `category` text parses as an unsigned
base-10 integer fitting 32 bits and nil for every other text, the absent one
included; the price filter is the parsed decimal when `price_less_than`
parses and nil otherwise, given that the library rejects the empty text; the
handler reports no error of its own: the response is 200 unless the
repository itself fails (then 500). -/
theorem C10_permissive_filters {F : Type} (fl : json.Floats F) (lib : decimal.Lib F)
    (repo : ProductsRepository)
    (r : Request) (hempty : (lib.NewFromString []).2 ≠ none) :
    (∃ offset limit resp,
      (HandleGet fl lib repo r).calls =
        [RepoCall.GetProductsByFilter offset limit
          (parsesAsUint32 (r.Get "category"))
          (if (lib.NewFromString (r.Get "price_less_than")).2 = none
            then some (lib.NewFromString (r.Get "price_less_than")).1 else none)] ∧
      (HandleGet fl lib repo r).response = some resp ∧
      resp.status =
        (if (repo.GetProductsByFilter offset limit
          (parsesAsUint32 (r.Get "category"))
          (if (lib.NewFromString (r.Get "price_less_than")).2 = none
            then some (lib.NewFromString (r.Get "price_less_than")).1 else none)).2.2 = none
         then 200 else 500)) ∧
    parsesAsUint32 [] = none := by
  have hprice : (HandleGet.args lib r).2.2.2 =
      (if (lib.NewFromString (r.Get "price_less_than")).2 = none
        then some (lib.NewFromString (r.Get "price_less_than")).1 else none) := by
    show (if r.Get "price_less_than" ≠ [] then
        (if (lib.NewFromString (r.Get "price_less_than")).2 = none
          then some (lib.NewFromString (r.Get "price_less_than")).1 else none)
      else none) = _
    by_cases hne : r.Get "price_less_than" = []
    · rw [hne]
      simp [hempty]
    · simp [hne]
  have hresp : ∃ resp, (HandleGet fl lib repo r).response = some resp ∧
      resp.status =
        (if (repo.GetProductsByFilter (HandleGet.args lib r).1 (HandleGet.args lib r).2.1
          (HandleGet.args lib r).2.2.1 (HandleGet.args lib r).2.2.2).2.2 = none
         then 200 else 500) := by
    unfold HandleGet
    split
    rename_i o l c d heq
    rw [heq]
    simp only []
    rcases hres : repo.GetProductsByFilter o l c d with ⟨products, total, _ | err⟩
    · exact ⟨_, rfl, OKResponse_status fl _⟩
    · exact ⟨_, rfl, rfl⟩
  obtain ⟨resp, h1, h2⟩ := hresp
  refine ⟨⟨(HandleGet.args lib r).1, (HandleGet.args lib r).2.1, resp, ?_, h1, ?_⟩, rfl⟩
  · rw [HandleGet_calls, HandleGet_args_category, hprice]
  · rw [h2, HandleGet_args_category, hprice]

/-- C10 at `category=abc&price_less_than=11` on the example store. -/
theorem C10_permissive_filters_witness :
    (Example.lib.NewFromString []).2 ≠ none ∧
    ((∃ offset limit resp,
      (HandleGet Example.floats Example.lib (storeRepository Example.db)
          (Example.request [("category", [97, 98, 99]), ("price_less_than", [49, 49])] [])).calls =
        [RepoCall.GetProductsByFilter offset limit
          (parsesAsUint32 [97, 98, 99])
          (if (Example.lib.NewFromString [49, 49]).2 = none
            then some (Example.lib.NewFromString [49, 49]).1 else none)] ∧
      (HandleGet Example.floats Example.lib (storeRepository Example.db)
          (Example.request [("category", [97, 98, 99]), ("price_less_than", [49, 49])]
            [])).response = some resp ∧
      resp.status =
        (if ((storeRepository Example.db).GetProductsByFilter offset limit
          (parsesAsUint32 [97, 98, 99])
          (if (Example.lib.NewFromString [49, 49]).2 = none
            then some (Example.lib.NewFromString [49, 49]).1 else none)).2.2 = none
         then 200 else 500)) ∧
    parsesAsUint32 [] = none) :=
  ⟨by decide,
   C10_permissive_filters Example.floats Example.lib (storeRepository Example.db)
    (Example.request [("category", [97, 98, 99]), ("price_less_than", [49, 49])] [])
    (by decide)⟩

/-- C11. Category creation validation in `HandleCreate`: a POST request whose
body decodes with an empty code or an empty name is answered 400 "Code and
name are required" without any repository call; a POST request whose body does
not decode is answered 400 "Invalid request body" without any repository
call; and for every request, `Create` is called if and only if the method is
POST, the body decodes and both fields are non-empty, and then it is the only
call and carries exactly the decoded code and name. -/
theorem C11_create_validation (F : Type) (fl : json.Floats F)
    (dec : categories.Decoder)
    (repo : categories.CategoriesRepository) (rv ri r : categories.Request)
    (hv : rv.Method = "POST" ∧ (dec.Decode rv.Body).2 = none ∧
      ((dec.Decode rv.Body).1.Code = "" ∨ (dec.Decode rv.Body).1.Name = ""))
    (hi : ri.Method = "POST" ∧ (dec.Decode ri.Body).2 ≠ none) :
    ((categories.HandleCreate F fl dec repo rv).calls = [] ∧
      (categories.HandleCreate F fl dec repo rv).response =
        some { status := 400, contentType := "application/json",
               body := api.Body.json
                 (Json.object [("error", Json.string "Code and name are required")]) }) ∧
    ((categories.HandleCreate F fl dec repo ri).calls = [] ∧
      (categories.HandleCreate F fl dec repo ri).response =
        some { status := 400, contentType := "application/json",
               body := api.Body.json
                 (Json.object [("error", Json.string "Invalid request body")]) }) ∧
    ((∃ c, categories.RepoCall.Create c ∈ (categories.HandleCreate F fl dec repo r).calls) ↔
      (r.Method = "POST" ∧ (dec.Decode r.Body).2 = none ∧
        (dec.Decode r.Body).1.Code ≠ "" ∧ (dec.Decode r.Body).1.Name ≠ "")) ∧
    ((categories.HandleCreate F fl dec repo r).calls =
      if r.Method = "POST" ∧ (dec.Decode r.Body).2 = none ∧
          (dec.Decode r.Body).1.Code ≠ "" ∧ (dec.Decode r.Body).1.Name ≠ ""
      then [categories.RepoCall.Create
        { ID := 0, Code := (dec.Decode r.Body).1.Code, Name := (dec.Decode r.Body).1.Name }]
      else []) := by
  obtain ⟨hvm, hvd, hve⟩ := hv
  obtain ⟨him, hid⟩ := hi
  refine ⟨?_, ?_, ?_, HandleCreate_calls F fl dec repo r⟩
  · unfold categories.HandleCreate
    simp only [hvm, hvd, hve, ne_eq, not_true_eq_false, if_false, if_true]
    exact ⟨trivial, rfl⟩
  · unfold categories.HandleCreate
    simp only [him, hid, ne_eq, not_true_eq_false, not_false_eq_true, if_false, if_true]
    exact ⟨trivial, rfl⟩
  · rw [HandleCreate_calls]
    by_cases hcond : r.Method = "POST" ∧ (dec.Decode r.Body).2 = none ∧
        (dec.Decode r.Body).1.Code ≠ "" ∧ (dec.Decode r.Body).1.Name ≠ ""
    · rw [if_pos hcond]
      exact ⟨fun _ => hcond, fun _ => ⟨_, List.mem_singleton.2 rfl⟩⟩
    · rw [if_neg hcond]
      constructor
      · rintro ⟨c, hc⟩
        cases hc
      · intro h
        exact absurd h hcond

/-- C11 at three POST requests on the example decoder: the body `{}`, a body
that is not JSON, and a body with code `a` and name `b`. -/
theorem C11_create_validation_witness :
    ((categories.HandleCreate Decimal Example.floats Example.decoder Example.categoriesRepository
        { Method := "POST", Body := [123, 125] }).calls = [] ∧
      (categories.HandleCreate Decimal Example.floats Example.decoder Example.categoriesRepository
        { Method := "POST", Body := [123, 125] }).response =
        some { status := 400, contentType := "application/json",
               body := api.Body.json
                 (Json.object [("error", Json.string "Code and name are required")]) }) ∧
    ((categories.HandleCreate Decimal Example.floats Example.decoder Example.categoriesRepository
        { Method := "POST", Body := [120] }).calls = [] ∧
      (categories.HandleCreate Decimal Example.floats Example.decoder Example.categoriesRepository
        { Method := "POST", Body := [120] }).response =
        some { status := 400, contentType := "application/json",
               body := api.Body.json
                 (Json.object [("error", Json.string "Invalid request body")]) }) ∧
    (categories.HandleCreate Decimal Example.floats Example.decoder Example.categoriesRepository
        { Method := "POST",
          Body := [123, 34, 99, 111, 100, 101, 34, 58, 34, 97, 34, 44,
            34, 110, 97, 109, 101, 34, 58, 34, 98, 34, 125] }).calls =
      [categories.RepoCall.Create { ID := 0, Code := "a", Name := "b" }] :=
  have h := C11_create_validation Decimal Example.floats Example.decoder Example.categoriesRepository
    { Method := "POST", Body := [123, 125] } { Method := "POST", Body := [120] }
    { Method := "POST",
      Body := [123, 34, 99, 111, 100, 101, 34, 58, 34, 97, 34, 44,
        34, 110, 97, 109, 101, 34, 58, 34, 98, 34, 125] }
    (by decide) (by decide)
  ⟨h.1, h.2.1, h.2.2.2⟩

end Catalog
